import Mathlib

/-!
Verification of the tournament-manager domain core
(src/tournament_manager_app.jsx): bracket generators, match updates,
admin actions and leaderboard aggregation, shallowly embedded in Lean.

Modelling conventions:
* JS `null`/`undefined` in a field is `Option.none`; JS truthiness of an
  id string (`if (a.id)`) is `truthyId` (false on null and on the empty
  string).
* The id source `uid` (line 35 of the source) draws a random suffix; it
  is modelled by threading a counter `c` and a suffix stream
  `sigma : Nat -> String` (the random part), so `uid sigma pfx c`
  returns `pfx ++ "_" ++ sigma c` and the bumped counter. Every id the
  code generates is produced this way.
* The shuffle `[...players].sort(() => Math.random() - 0.5)` (line 64)
  produces an arbitrary permutation; it is a function parameter
  `shuffle`, constrained to be a permutation in theorems that need it.
* JS array loops become structural recursion; the while-loop of the
  single-elimination generator uses a fuel argument that provably
  suffices (the slot list shrinks every iteration).
-/

/-- A tournament participant: `{id, name}` from the source; the
round-robin generator inserts a `{id: null, name: "BYE"}` marker, so
the id is optional. -/
structure Player where
  pid : Option String
  name : String
deriving DecidableEq

/-- A match record as the generators allocate it:
`{id, players, score, winner, scheduledAt}`; the flat copies of a
single-elimination bracket additionally carry `tournamentId`
(line 193 of the source). -/
structure MatchRec where
  mid : String
  players : List Player
  score : List Int
  winner : Option String
  scheduledAt : Option String
  tournamentId : Option String
deriving DecidableEq

/-- Format-specific structural data stored on a tournament
(`base.meta`): `rounds` for single / roundrobin / league, and
`winners` / `losers` (plus the `type` tag) for double. -/
structure Meta where
  rounds : Option (List (List MatchRec))
  winners : Option (List (List MatchRec))
  losers : Option (List (List MatchRec))
  mtype : Option String
deriving DecidableEq

/-- A stored tournament (`base` object of `createTournament`,
line 188 of the source). The source field `matches` is `matchList`
here because `matches` is reserved in Lean. -/
structure Tournament where
  tid : String
  title : String
  ttype : String
  organizerId : String
  players : List Player
  createdAt : String
  scheduleMode : String
  chat : List String
  adminNotes : List String
  matchList : List MatchRec
  meta : Meta
deriving DecidableEq

/-- `uid(prefix)` (source line 35): `prefix + "_" + <random suffix>`.
The suffix stream `sigma` and counter `c` model the randomness; the
result pairs the produced id with the advanced counter. -/
def uid (sigma : Nat → String) (pfx : String) (c : Nat) : String × Nat :=
  (pfx ++ "_" ++ sigma c, c + 1)

/-- JS truthiness of an id value: `null` and `""` are falsy. -/
def truthyId : Option String → Bool
  | none => false
  | some s => !(s == "")

/-- A singleton starting slot of the single-elimination generator
(source line 66): `{id: uid("m"), players: [p], score: [], winner: null}`. -/
def initSlot (sigma : Nat → String) (p : Player) (c : Nat) : MatchRec × Nat :=
  let (i, c) := uid sigma "m" c
  ({ mid := i, players := [p], score := [], winner := none,
     scheduledAt := none, tournamentId := none }, c)

/-- Allocate the initial slots, one per shuffled player, threading the
id counter (source line 66). -/
def initSlots (sigma : Nat → String) : List Player → Nat → List MatchRec × Nat
  | [], c => ([], c)
  | p :: ps, c =>
    let s := initSlot sigma p c
    let rest := initSlots sigma ps s.2
    (s.1 :: rest.1, rest.2)

/-- One pairing pass of the single-elimination generator (source
lines 70 to 74): consecutive slots `(i, i+1)` become one match whose
players are `[p1, p2].filter(Boolean)` — the head player of each slot
when present. -/
def pairSlots (sigma : Nat → String) : List MatchRec → Nat → List MatchRec × Nat
  | [], c => ([], c)
  | [s1], c =>
    let (i, c) := uid sigma "m" c
    ([{ mid := i, players := [s1.players.head?].filterMap id,
        score := [0, 0], winner := none, scheduledAt := none,
        tournamentId := none }], c)
  | s1 :: s2 :: rest, c =>
    let (i, c) := uid sigma "m" c
    let m : MatchRec :=
      { mid := i, players := [s1.players.head?, s2.players.head?].filterMap id,
        score := [0, 0], winner := none, scheduledAt := none,
        tournamentId := none }
    let r := pairSlots sigma rest c
    (m :: r.1, r.2)

/-- Next-round placeholder slots (source line 77): one empty slot per
match of the round just produced, each drawing `uid("r")`. -/
def placeholders (sigma : Nat → String) : List MatchRec → Nat → List MatchRec × Nat
  | [], c => ([], c)
  | _ :: ms, c =>
    let (i, c) := uid sigma "r" c
    let rest := placeholders sigma ms c
    ({ mid := i, players := [], score := [], winner := none,
       scheduledAt := none, tournamentId := none } :: rest.1, rest.2)

/-- The `while (currentRound.length > 1)` loop of the single-elimination
generator (source lines 68 to 78), with an explicit fuel so the
definition is structurally recursive; any fuel at least the slot count
gives the same result (`buildRounds_fuel_irrel`). -/
def buildRounds (sigma : Nat → String) :
    Nat → List MatchRec → Nat → List (List MatchRec) × Nat
  | 0, _, c => ([], c)
  | fuel + 1, slots, c =>
    if slots.length ≤ 1 then ([], c)
    else
      let r1 := pairSlots sigma slots c
      let r2 := placeholders sigma r1.1 r1.2
      let r3 := buildRounds sigma fuel r2.1 r2.2
      (r1.1 :: r3.1, r3.2)

/-- `generateSingleElim` (source lines 62 to 81): shuffle, allocate
singleton slots, then repeatedly pair. Returns the round list (the
source also tags it `type: "single"`). -/
def generateSingleElim (shuffle : List Player → List Player)
    (sigma : Nat → String) (players : List Player) (c : Nat) :
    List (List MatchRec) × Nat :=
  let r := initSlots sigma (shuffle players) c
  buildRounds sigma r.1.length r.1 r.2

/-- The round-robin rotation `p.splice(1, 0, p.pop())` (source
line 98): move the last element to position 1, anchor fixed. -/
def rrRotate : List Player → List Player
  | [] => []
  | a :: rest =>
    match rest.getLast? with
    | none => [a]
    | some lastP => a :: lastP :: rest.dropLast

/-- The inner loop of one round-robin round (source lines 90 to 95):
for each index `i`, pair `p[i]` with `p[n-1-i]` and keep the match only
when both ids are truthy (`if (a.id && b.id)`), drawing `uid("m")` for
each kept match. -/
def rrMatchesAux (sigma : Nat → String) (p : List Player) :
    List Nat → Nat → List MatchRec × Nat
  | [], c => ([], c)
  | i :: is, c =>
    match p[i]?, p[p.length - 1 - i]? with
    | some a, some b =>
      if truthyId a.pid && truthyId b.pid then
        let (mi, c1) := uid sigma "m" c
        let rest := rrMatchesAux sigma p is c1
        ({ mid := mi, players := [a, b], score := [0, 0], winner := none,
           scheduledAt := none, tournamentId := none } :: rest.1, rest.2)
      else rrMatchesAux sigma p is c
    | _, _ => rrMatchesAux sigma p is c

/-- One round of the round-robin generator: indices `0 ≤ i < n / 2`. -/
def rrRound (sigma : Nat → String) (p : List Player) (c : Nat) :
    List MatchRec × Nat :=
  rrMatchesAux sigma p (List.range (p.length / 2)) c

/-- The outer loop of the round-robin generator (source lines 89 to 99):
produce the requested number of rounds, rotating between rounds. -/
def rrRounds (sigma : Nat → String) :
    Nat → List Player → Nat → List (List MatchRec) × Nat
  | 0, _, c => ([], c)
  | r + 1, p, c =>
    let r1 := rrRound sigma p c
    let r2 := rrRounds sigma r (rrRotate p) r1.2
    (r1.1 :: r2.1, r2.2)

/-- The synthetic bye marker `{id: null, name: "BYE"}` (source line 86). -/
def byePlayer : Player := { pid := none, name := "BYE" }

/-- Pad an odd-length player list with the bye marker (source line 86). -/
def rrPad (players : List Player) : List Player :=
  if players.length % 2 = 1 then players ++ [byePlayer] else players

/-- `generateRoundRobin` (source lines 84 to 101): pad to even length,
then produce `n - 1` rounds by the circle method. -/
def generateRoundRobin (sigma : Nat → String) (players : List Player)
    (c : Nat) : List (List MatchRec) × Nat :=
  let p := rrPad players
  rrRounds sigma (p.length - 1) p c

/-- Clone one round with fresh `uid("l")` ids, keeping every other
field (source line 107: `({...m, id: uid("l")})`). -/
def cloneRound (sigma : Nat → String) :
    List MatchRec → Nat → List MatchRec × Nat
  | [], c => ([], c)
  | m :: ms, c =>
    let (i, c1) := uid sigma "l" c
    let rest := cloneRound sigma ms c1
    ({ m with mid := i } :: rest.1, rest.2)

/-- Clone a round list with fresh `uid("l")` ids (source line 107):
`single.rounds.map(r => r.map(m => ({...m, id: uid("l")})))`. -/
def cloneLosers (sigma : Nat → String) :
    List (List MatchRec) → Nat → List (List MatchRec) × Nat
  | [], c => ([], c)
  | r :: rs, c =>
    let r1 := cloneRound sigma r c
    let r2 := cloneLosers sigma rs r1.2
    (r1.1 :: r2.1, r2.2)

/-- `generateDoubleElim` (source lines 104 to 109): a winners bracket
from the single-elimination generator and a structurally parallel
losers bracket cloned from it. -/
def generateDoubleElim (shuffle : List Player → List Player)
    (sigma : Nat → String) (players : List Player) (c : Nat) :
    (List (List MatchRec) × List (List MatchRec)) × Nat :=
  let w := generateSingleElim shuffle sigma players c
  let l := cloneLosers sigma w.1 w.2
  ((w.1, l.1), l.2)

/-- JS object property keys are strings: `players[p.id]` stores a
`null` id under the key `"null"` (source line 116). -/
def idKey : Option String → String
  | none => "null"
  | some s => s

/-- A leaderboard aggregate `{id, name, wins, losses, points}`
(source line 116); `eid` keeps the raw id value stored there. -/
structure LBEntry where
  eid : Option String
  name : String
  wins : Nat
  losses : Nat
  points : Nat
deriving DecidableEq

/-- The `players` accumulator object of `computeLeaderboard`: an
insertion-ordered string-keyed map, as JS objects are. -/
abbrev LBMap : Type := List (String × LBEntry)

/-- Register the players of one tournament (source lines 115 to 117):
`if (!players[p.id]) players[p.id] = {id, name, 0, 0, 0}` — first
occurrence wins, insertion order preserved. -/
def regPlayers : LBMap → List Player → LBMap
  | acc, [] => acc
  | acc, p :: ps =>
    regPlayers
      (if (acc.lookup (idKey p.pid)).isSome then acc
       else acc ++ [(idKey p.pid, ⟨p.pid, p.name, 0, 0, 0⟩)]) ps

/-- Modify the entry at a key; `none` models the JS `TypeError` raised
when the key is absent and a field of `undefined` is touched. -/
def adjust (k : String) (f : LBEntry → LBEntry) : LBMap → Option LBMap
  | [] => none
  | (k2, e) :: rest =>
    if k2 = k then some ((k2, f e) :: rest)
    else (adjust k f rest).map (fun r => (k2, e) :: r)

/-- JS truthiness of `m.winner` (`if (m.winner)`, source line 122):
`some w` exactly when the stored winner is a non-empty string. -/
def truthyWinner : Option String → Option String
  | none => none
  | some s => if s = "" then none else some s

/-- `m.players.find(pp => pp.id !== m.winner)` (source line 124): the
first listed participant whose id differs from the winner string. -/
def firstLoser (m : MatchRec) (w : String) : Option Player :=
  m.players.find? (fun q => !(q.pid == some w))

/-- The loss bump (source lines 124 to 125): when a first loser exists,
touch the entry at the key of its id; `none` is the JS crash on a
missing entry. -/
def lbLoserStep (acc1 : LBMap) (m : MatchRec) (w : String) : Option LBMap :=
  match firstLoser m w with
  | some loser =>
    adjust (idKey loser.pid) (fun e => { e with losses := e.losses + 1 }) acc1
  | none => some acc1

/-- Process one match (source lines 119 to 128): skip when the player
list is empty or the winner falsy; otherwise bump the winner entry
wins, the first-loser entry losses, and the winner entry points by 3,
in source order. A missing entry at any of those lookups is the JS
crash, propagated as `none`. -/
def procMatch (acc : LBMap) (m : MatchRec) : Option LBMap :=
  if m.players.isEmpty then some acc
  else
    match truthyWinner m.winner with
    | none => some acc
    | some w =>
      (adjust w (fun e => { e with wins := e.wins + 1 }) acc).bind (fun acc1 =>
        (lbLoserStep acc1 m w).bind (fun acc2 =>
          adjust w (fun e => { e with points := e.points + 3 }) acc2))

/-- Fold `procMatch` over the match list of one tournament. -/
def procMatches : LBMap → List MatchRec → Option LBMap
  | acc, [] => some acc
  | acc, m :: ms =>
    match procMatch acc m with
    | none => none
    | some acc2 => procMatches acc2 ms

/-- One tournament of the `tournaments.forEach` loop (source
lines 114 to 130): register players, then process matches. -/
def procTournament (acc : LBMap) (t : Tournament) : Option LBMap :=
  procMatches (regPlayers acc t.players) t.matchList

/-- Fold over all tournaments. -/
def procAll : LBMap → List Tournament → Option LBMap
  | acc, [] => some acc
  | acc, t :: ts =>
    match procTournament acc t with
    | none => none
    | some acc2 => procAll acc2 ts

/-- The sort comparator `(a, b) => b.points - a.points || b.wins - a.wins`
(source line 131) as the relation `a may come before b`. -/
def lbLE (a b : LBEntry) : Bool :=
  (b.points < a.points) || (a.points == b.points && b.wins ≤ a.wins)

/-- `lbLE` as a relation, for sorting. -/
def lbRel (a b : LBEntry) : Prop := lbLE a b = true

instance : DecidableRel lbRel := fun a b => by
  unfold lbRel
  infer_instance

instance : IsTotal LBEntry lbRel := by
  constructor
  intro a b
  unfold lbRel lbLE
  rcases Nat.lt_trichotomy a.points b.points with h | h | h
  · right
    simp [h]
  · rcases Nat.le_total b.wins a.wins with h2 | h2
    · left
      simp [h, h2]
    · right
      simp [h.symm, h2]
  · left
    simp [h]

instance : IsTrans LBEntry lbRel := by
  constructor
  intro a b c hab hbc
  unfold lbRel lbLE at hab hbc ⊢
  simp only [Bool.or_eq_true, Bool.and_eq_true, decide_eq_true_eq, beq_iff_eq] at hab hbc ⊢
  omega

/-- A comparator-respecting sort; any correct implementation of the JS
`Array.prototype.sort` contract orders the output by the comparator
relation `lbRel`, which is the property the code relies on. -/
def lbSort (l : List LBEntry) : List LBEntry :=
  List.insertionSort lbRel l

/-- `computeLeaderboard` (source lines 112 to 132); `none` is the JS
`TypeError` reached when a winner or loser id has no entry. -/
def computeLeaderboard (ts : List Tournament) : Option (List LBEntry) :=
  (procAll [] ts).map (fun acc => lbSort (acc.map (fun kv => kv.2)))

/-- A partial match update `{score?, winner?, scheduledAt?}`: the outer
`Option` is key presence in the JS payload object. -/
structure MatchUpdate where
  score : Option (List Int)
  winner : Option (Option String)
  scheduledAt : Option (Option String)
deriving DecidableEq

/-- `{...m, ...update}` (source line 217): present keys override. -/
def applyUpdate (u : MatchUpdate) (m : MatchRec) : MatchRec :=
  { m with score := u.score.getD m.score,
           winner := u.winner.getD m.winner,
           scheduledAt := u.scheduledAt.getD m.scheduledAt }

/-- The per-tournament body of `updateMatch` (source lines 216 to 225):
patch the flat list, and patch `meta.rounds` only when present. -/
def updateMatchT (mid : String) (u : MatchUpdate) (t : Tournament) : Tournament :=
  let ms := t.matchList.map (fun m => if m.mid = mid then applyUpdate u m else m)
  let meta2 :=
    match t.meta.rounds with
    | some rounds =>
      { t.meta with
        rounds :=
          some (rounds.map (fun rnd =>
            rnd.map (fun m => if m.mid = mid then applyUpdate u m else m))) }
    | none => t.meta
  { t with matchList := ms, meta := meta2 }

/-- `updateMatch` (source lines 213 to 228) over the stored collection. -/
def updateMatch (ts : List Tournament) (tid mid : String) (u : MatchUpdate) :
    List Tournament :=
  ts.map (fun t => if t.tid = tid then updateMatchT mid u t else t)

/-- JS template interpolation of a possibly missing value prints
`undefined`. -/
def showOpt : Option String → String
  | none => "undefined"
  | some s => s

/-- The audit string of the disqualify branch (source line 241). -/
def auditNote (pid user : Option String) (now : String) : String :=
  "Disqualified " ++ showOpt pid ++ " by " ++ showOpt user ++ " at " ++ now

/-- The two admin actions and their payloads (source lines 230 to 247). -/
inductive AdminAct where
  | reschedule (matchIds : List String) (scheduledAt : Option String)
  | disqualify (playerId : Option String)

/-- The per-tournament body of `adminAction`: reschedule patches only
the flat list (source line 235); disqualify filters the player out and
appends the audit note (source lines 240 to 242). -/
def adminActionT (user : Option String) (now : String) (act : AdminAct)
    (t : Tournament) : Tournament :=
  match act with
  | .reschedule mids ts2 =>
    { t with
      matchList := t.matchList.map (fun m =>
        if mids.contains m.mid then { m with scheduledAt := ts2 } else m) }
  | .disqualify pid =>
    { t with
      players := t.players.filter (fun p => !(p.pid == pid)),
      adminNotes := t.adminNotes ++ [auditNote pid user now] }

/-- `adminAction` (source lines 230 to 247) over the stored collection. -/
def adminAction (user : Option String) (now : String) (ts : List Tournament)
    (tid : String) (act : AdminAct) : List Tournament :=
  ts.map (fun t => if t.tid = tid then adminActionT user now act t else t)

/-- Inputs of `createTournament` (source line 186). -/
structure CreateArgs where
  title : String
  ttype : String
  organizerId : String
  players : List Player
  scheduleMode : String

/-- `createTournament` (source lines 186 to 211): build the base
record, dispatch on the format to fill the flat match list and the
structural meta, and return the tournament (the source also prepends
it to the stored collection). Only the single-elimination branch tags
flat copies with `tournamentId` (source line 193). -/
def createTournament (shuffle : List Player → List Player)
    (sigma : Nat → String) (now : String) (args : CreateArgs) (c : Nat) :
    Tournament × Nat :=
  let (tid0, c1) := uid sigma "t" c
  let base : Tournament :=
    { tid := tid0, title := args.title, ttype := args.ttype,
      organizerId := args.organizerId, players := args.players,
      createdAt := now, scheduleMode := args.scheduleMode, chat := [],
      adminNotes := [], matchList := [],
      meta := { rounds := none, winners := none, losers := none, mtype := none } }
  if args.ttype = "single" then
    let r := generateSingleElim shuffle sigma args.players c1
    ({ base with
       matchList := r.1.flatten.map (fun m => { m with tournamentId := some tid0 }),
       meta := { rounds := some r.1, winners := none, losers := none, mtype := none } },
     r.2)
  else if args.ttype = "roundrobin" then
    let r := generateRoundRobin sigma args.players c1
    ({ base with
       matchList := r.1.flatten,
       meta := { rounds := some r.1, winners := none, losers := none, mtype := none } },
     r.2)
  else if args.ttype = "double" then
    let r := generateDoubleElim shuffle sigma args.players c1
    ({ base with
       matchList := r.1.1.flatten ++ r.1.2.flatten,
       meta := { rounds := none, winners := some r.1.1, losers := some r.1.2, mtype := some "double" } },
     r.2)
  else if args.ttype = "league" then
    let r := generateRoundRobin sigma args.players c1
    ({ base with
       matchList := r.1.flatten,
       meta := { rounds := some r.1, winners := none, losers := none, mtype := none } },
     r.2)
  else (base, c1)

/-- Winner value computed by `setScore` (source line 432):
`aScore === bScore ? null : m.players[aScore > bScore ? 0 : 1].id`;
the outer `none` is the JS `TypeError` when that player is absent. -/
def scoreWinner (m : MatchRec) (a b : Int) : Option (Option String) :=
  if a = b then some none
  else (m.players[if b < a then 0 else 1]?).map Player.pid

/-- `setScore` (source lines 431 to 434): derive the winner and call
`updateMatch` with `{score: [a, b], winner}`. -/
def setScore (ts : List Tournament) (t : Tournament) (m : MatchRec)
    (a b : Int) : Option (List Tournament) :=
  (scoreWinner m a b).map (fun w =>
    updateMatch ts t.tid m.mid
      { score := some [a, b], winner := some w, scheduledAt := none })

/-- The create-button handler defaults the title (source line 370):
`title: title || "Untitled"`. -/
def newTournamentTitle (title : String) : String :=
  if title = "" then "Untitled" else title

/-- The tournament built by the create-button handler of the
`NewTournament` panel (source lines 363 to 372) for a given raw title
input and the other creation arguments. -/
def newTournamentCreate (shuffle : List Player → List Player)
    (sigma : Nat → String) (now : String) (title ttype organizerId : String)
    (players : List Player) (scheduleMode : String) (c : Nat) :
    Tournament × Nat :=
  createTournament shuffle sigma now
    { title := newTournamentTitle title, ttype := ttype,
      organizerId := organizerId, players := players,
      scheduleMode := scheduleMode } c

/-- The field values the two-view invariant compares: score, winner,
scheduledAt and players. -/
def sameViewFields (m1 m2 : MatchRec) : Prop :=
  m1.score = m2.score ∧ m1.winner = m2.winner ∧
  m1.scheduledAt = m2.scheduledAt ∧ m1.players = m2.players

instance (m1 m2 : MatchRec) : Decidable (sameViewFields m1 m2) := by
  unfold sameViewFields; infer_instance

/-- All matches of the `meta.rounds` structural view. -/
def structRounds (t : Tournament) : List MatchRec :=
  (t.meta.rounds.getD []).flatten

/-- All matches of every structural view: `meta.rounds` plus
`meta.winners` and `meta.losers`. -/
def structAll (t : Tournament) : List MatchRec :=
  (t.meta.rounds.getD []).flatten ++ (t.meta.winners.getD []).flatten ++
  (t.meta.losers.getD []).flatten

/-- Flat / structural consistency against the `meta.rounds` view only:
every id shared by the flat list and `meta.rounds` carries identical
field values in both. -/
def ConsistentR (t : Tournament) : Prop :=
  ∀ m1 ∈ t.matchList, ∀ m2 ∈ structRounds t, m1.mid = m2.mid → sameViewFields m1 m2

instance (t : Tournament) : Decidable (ConsistentR t) := by
  unfold ConsistentR; infer_instance

/-- Flat / structural consistency against every structural view,
as claim C1 states it (`meta.rounds`, `meta.winners`, `meta.losers`). -/
def ConsistentAll (t : Tournament) : Prop :=
  ∀ m1 ∈ t.matchList, ∀ m2 ∈ structAll t, m1.mid = m2.mid → sameViewFields m1 m2

instance (t : Tournament) : Decidable (ConsistentAll t) := by
  unfold ConsistentAll; infer_instance

/-- The flat matches of every stored tournament, in iteration order. -/
def allMatches (ts : List Tournament) : List MatchRec :=
  ts.flatMap (fun t => t.matchList)

/-- The map keys under which `computeLeaderboard` registers players,
in iteration order. -/
def regKeys (ts : List Tournament) : List String :=
  ts.flatMap (fun t => t.players.map (fun p => idKey p.pid))

/-- A match `computeLeaderboard` credits to winner key `k`: non-empty
player list and truthy winner equal to `k`. -/
def winInd (k : String) (m : MatchRec) : Bool :=
  !m.players.isEmpty && (truthyWinner m.winner == some k)

/-- The key whose entry the loss bump of `computeLeaderboard` hits:
the first listed participant whose id differs from the truthy winner. -/
def firstLoserKey (m : MatchRec) : Option String :=
  match truthyWinner m.winner with
  | none => none
  | some w => (firstLoser m w).map (fun p => idKey p.pid)

/-- A match `computeLeaderboard` debits to loser key `k`. -/
def lossInd (k : String) (m : MatchRec) : Bool :=
  !m.players.isEmpty && (firstLoserKey m == some k)

/-- Number of matches credited to winner key `k` over all tournaments. -/
def winCount (k : String) (ts : List Tournament) : Nat :=
  (allMatches ts).countP (winInd k)

/-- Number of matches debited to loser key `k` over all tournaments. -/
def lossCount (k : String) (ts : List Tournament) : Nat :=
  (allMatches ts).countP (lossInd k)

/-- The loss count the spec wording of claim C5 prescribes for the
player with id value `pidv`: matches in which that player participates
and the recorded winner is the id of another participant. -/
def specLossInd (pidv : Option String) (m : MatchRec) : Bool :=
  (m.players.any (fun q => q.pid == pidv)) &&
  (m.players.any (fun q => !(q.pid == pidv) && (m.winner == q.pid)))

/-- Total of `specLossInd` over all tournaments. -/
def specLossCount (pidv : Option String) (ts : List Tournament) : Nat :=
  (allMatches ts).countP (specLossInd pidv)

/-- The precondition of claim C10: every recorded winner id, and the id
of every participant of a match with a recorded winner, appears in some
player list of the input. -/
def LbPre (ts : List Tournament) : Prop :=
  ∀ t ∈ ts, ∀ m ∈ t.matchList, ∀ w, m.winner = some w →
    ((∃ t2 ∈ ts, ∃ p ∈ t2.players, p.pid = some w) ∧
     ∀ q ∈ m.players, ∃ t2 ∈ ts, ∃ p ∈ t2.players, p.pid = q.pid)

instance (ts : List Tournament) : Decidable (LbPre ts) := by
  unfold LbPre; infer_instance

/-- Every branch of `createTournament` keeps the title of the base
record. -/
theorem createTournament_title (shuffle : List Player → List Player)
    (sigma : Nat → String) (now : String) (args : CreateArgs) (c : Nat) :
    (createTournament shuffle sigma now args c).1.title = args.title := by
  by_cases h1 : args.ttype = "single" <;> by_cases h2 : args.ttype = "roundrobin" <;>
    by_cases h3 : args.ttype = "double" <;> by_cases h4 : args.ttype = "league" <;>
    simp [createTournament, uid, h1, h2, h3, h4]

/-- Claim C9: a create invocation with an empty title input yields the
title Untitled, and with a non-empty title input yields that title. -/
theorem newTournament_title_default (shuffle : List Player → List Player)
    (sigma : Nat → String) (now title ttype orgId : String)
    (players : List Player) (mode : String) (c : Nat) :
    (newTournamentCreate shuffle sigma now title ttype orgId players mode c).1.title
      = if title = "" then "Untitled" else title := by
  unfold newTournamentCreate
  rw [createTournament_title]
  rfl

-- C8 helpers --------------------------------------------------------

theorem cloneRound_spec (sigma : Nat → String) :
    ∀ (r : List MatchRec) (c : Nat),
    List.Forall₂ (fun ml mw => ml.players = mw.players ∧ ml.score = mw.score ∧
      ml.winner = mw.winner ∧ ml.scheduledAt = mw.scheduledAt)
      (cloneRound sigma r c).1 r
  | [], _ => List.Forall₂.nil
  | m :: ms, c => by
    refine List.Forall₂.cons ?_ (cloneRound_spec sigma ms (c + 1))
    exact ⟨rfl, rfl, rfl, rfl⟩

theorem cloneRound_ids (sigma : Nat → String) :
    ∀ (r : List MatchRec) (c : Nat),
    ∀ ml ∈ (cloneRound sigma r c).1, ∃ j, ml.mid = "l" ++ "_" ++ sigma j
  | [], _ => by intro ml h; cases h
  | m :: ms, c => by
    intro ml h
    rcases List.mem_cons.mp h with h | h
    · exact ⟨c, by rw [h]⟩
    · exact cloneRound_ids sigma ms (c + 1) ml h

theorem cloneLosers_spec (sigma : Nat → String) :
    ∀ (rs : List (List MatchRec)) (c : Nat),
    List.Forall₂ (fun rl rw =>
      rl.length = rw.length ∧
      List.Forall₂ (fun ml mw => ml.players = mw.players ∧ ml.score = mw.score ∧
        ml.winner = mw.winner ∧ ml.scheduledAt = mw.scheduledAt) rl rw)
      (cloneLosers sigma rs c).1 rs
  | [], _ => List.Forall₂.nil
  | r :: rs, c => by
    refine List.Forall₂.cons ⟨?_, cloneRound_spec sigma r c⟩
      (cloneLosers_spec sigma rs (cloneRound sigma r c).2)
    exact (cloneRound_spec sigma r c).length_eq

theorem cloneLosers_ids (sigma : Nat → String) :
    ∀ (rs : List (List MatchRec)) (c : Nat),
    ∀ ml ∈ (cloneLosers sigma rs c).1.flatten, ∃ j, ml.mid = "l" ++ "_" ++ sigma j
  | [], _ => by intro ml h; cases h
  | r :: rs, c => by
    intro ml h
    have h2 : ml ∈ (cloneRound sigma r c).1 ++ (cloneLosers sigma rs (cloneRound sigma r c).2).1.flatten := h
    rcases List.mem_append.mp h2 with h3 | h3
    · exact cloneRound_ids sigma r c ml h3
    · exact cloneLosers_ids sigma rs (cloneRound sigma r c).2 ml h3

theorem pairSlots_ids (sigma : Nat → String) :
    ∀ (slots : List MatchRec) (c : Nat),
    ∀ mw ∈ (pairSlots sigma slots c).1, ∃ j, mw.mid = "m" ++ "_" ++ sigma j
  | [], _ => by intro mw h; cases h
  | [s1], c => by
    intro mw h
    rcases List.mem_cons.mp h with h | h
    · exact ⟨c, by rw [h]⟩
    · cases h
  | s1 :: s2 :: rest, c => by
    intro mw h
    rcases List.mem_cons.mp h with h | h
    · exact ⟨c, by rw [h]⟩
    · exact pairSlots_ids sigma rest (c + 1) mw h

theorem buildRounds_ids (sigma : Nat → String) :
    ∀ (fuel : Nat) (slots : List MatchRec) (c : Nat),
    ∀ mw ∈ (buildRounds sigma fuel slots c).1.flatten, ∃ j, mw.mid = "m" ++ "_" ++ sigma j
  | 0, _, _ => by intro mw h; cases h
  | fuel + 1, slots, c => by
    intro mw h
    by_cases hle : slots.length ≤ 1
    · rw [show (buildRounds sigma (fuel + 1) slots c).1 = [] from by
        simp [buildRounds, hle]] at h
      cases h
    · rw [show (buildRounds sigma (fuel + 1) slots c).1
            = (pairSlots sigma slots c).1 ::
              (buildRounds sigma fuel
                (placeholders sigma (pairSlots sigma slots c).1 (pairSlots sigma slots c).2).1
                (placeholders sigma (pairSlots sigma slots c).1 (pairSlots sigma slots c).2).2).1
          from by simp [buildRounds, hle]] at h
      rw [List.flatten_cons] at h
      rcases List.mem_append.mp h with h | h
      · exact pairSlots_ids sigma slots c mw h
      · exact buildRounds_ids sigma fuel _ _ mw h

theorem generateSingleElim_ids (shuffle : List Player → List Player)
    (sigma : Nat → String) (players : List Player) (c : Nat) :
    ∀ mw ∈ (generateSingleElim shuffle sigma players c).1.flatten,
      ∃ j, mw.mid = "m" ++ "_" ++ sigma j := by
  intro mw h
  exact buildRounds_ids sigma _ _ _ mw h

theorem l_m_prefix_ne (x y : String) : ("l" ++ "_" ++ x) ≠ ("m" ++ "_" ++ y) := by
  intro h
  have h2 := congrArg String.data h
  simp only [String.data_append] at h2
  simp [show ("l" : String).data = ['l'] from rfl,
        show ("m" : String).data = ['m'] from rfl] at h2

/-- Claim C8: the losers bracket of the double-elimination generator
has the same number of rounds and matches per round as the winners
bracket, with fresh ids distinct from every winners-bracket match id,
and every losers-bracket match carries exactly the cloned winners
fields (players, score, winner, scheduledAt) — no winners-bracket
loser is ever inserted. -/
theorem generateDoubleElim_parallel (shuffle : List Player → List Player)
    (sigma : Nat → String) (players : List Player) (c : Nat) :
    List.Forall₂ (fun rl rw =>
      rl.length = rw.length ∧
      List.Forall₂ (fun ml mw => ml.players = mw.players ∧ ml.score = mw.score ∧
        ml.winner = mw.winner ∧ ml.scheduledAt = mw.scheduledAt) rl rw)
      (generateDoubleElim shuffle sigma players c).1.2
      (generateDoubleElim shuffle sigma players c).1.1 ∧
    (generateDoubleElim shuffle sigma players c).1.2.length
      = (generateDoubleElim shuffle sigma players c).1.1.length ∧
    ∀ ml ∈ (generateDoubleElim shuffle sigma players c).1.2.flatten,
      ∀ mw ∈ (generateDoubleElim shuffle sigma players c).1.1.flatten,
        ml.mid ≠ mw.mid := by
  refine ⟨cloneLosers_spec sigma _ _, (cloneLosers_spec sigma _ _).length_eq, ?_⟩
  intro ml hl mw hw
  obtain ⟨j, hj⟩ := cloneLosers_ids sigma _ _ ml hl
  obtain ⟨k, hk⟩ := generateSingleElim_ids shuffle sigma players c mw hw
  rw [hj, hk]
  exact l_m_prefix_ne _ _

-- C4 ---------------------------------------------------------------

theorem applyUpdate_mid (u : MatchUpdate) (m : MatchRec) :
    (applyUpdate u m).mid = m.mid := rfl

theorem updateMatchT_tid (mid : String) (u : MatchUpdate) (t : Tournament) :
    (updateMatchT mid u t).tid = t.tid := rfl

/-- Claim C4: on a two-player match, setScore records the score pair
and derives the winner: unset on a tie, the first player on a higher
first score, the second player otherwise. -/
theorem setScore_winner_derivation
    (ts : List Tournament) (t : Tournament) (m : MatchRec) (p0 p1 : Player)
    (a b : Int) (hm : m.players = [p0, p1]) (ht : t ∈ ts) (hmem : m ∈ t.matchList) :
    ∃ ts2, setScore ts t m a b = some ts2 ∧
      (∃ t2 ∈ ts2, t2.tid = t.tid ∧ ∃ m2 ∈ t2.matchList, m2.mid = m.mid) ∧
      (∀ t2 ∈ ts2, t2.tid = t.tid → ∀ m2 ∈ t2.matchList, m2.mid = m.mid →
        m2.score = [a, b] ∧
        m2.winner = (if a = b then none else if b < a then p0.pid else p1.pid)) := by
  have hw : scoreWinner m a b
      = some (if a = b then none else if b < a then p0.pid else p1.pid) := by
    unfold scoreWinner
    by_cases hab : a = b
    · simp [hab]
    · by_cases hba : b < a <;> simp [hab, hba, hm]
  set w : Option String := if a = b then none else if b < a then p0.pid else p1.pid with hwdef
  set u : MatchUpdate := { score := some [a, b], winner := some w, scheduledAt := none }
    with hudef
  refine ⟨updateMatch ts t.tid m.mid u, ?_, ?_, ?_⟩
  · unfold setScore
    rw [hw]
    rfl
  · refine ⟨updateMatchT m.mid u t, ?_, rfl, ?_⟩
    · unfold updateMatch
      have : updateMatchT m.mid u t
          = (fun t2 => if t2.tid = t.tid then updateMatchT m.mid u t2 else t2) t := by
        simp
      rw [this]
      exact List.mem_map_of_mem _ ht
    · refine ⟨applyUpdate u m, ?_, rfl⟩
      unfold updateMatchT
      have : applyUpdate u m
          = (fun m2 => if m2.mid = m.mid then applyUpdate u m2 else m2) m := by simp
      rw [this]
      exact List.mem_map_of_mem _ hmem
  · intro t2 ht2 htid m2 hm2 hmid
    unfold updateMatch at ht2
    obtain ⟨t0, ht0, ht0e⟩ := List.mem_map.mp ht2
    by_cases h0 : t0.tid = t.tid
    · rw [if_pos h0] at ht0e
      subst ht0e
      unfold updateMatchT at hm2
      obtain ⟨m0, hm0, hm0e⟩ := List.mem_map.mp hm2
      by_cases hmm : m0.mid = m.mid
      · rw [if_pos hmm] at hm0e
        subst hm0e
        exact ⟨rfl, rfl⟩
      · rw [if_neg hmm] at hm0e
        subst hm0e
        exact absurd hmid hmm
    · rw [if_neg h0] at ht0e
      subst ht0e
      exact absurd htid h0

-- C6 ---------------------------------------------------------------

theorem list_map_self {α : Type} {f : α → α} :
    ∀ {l : List α}, (∀ x ∈ l, f x = x) → l.map f = l
  | [], _ => rfl
  | a :: l, h => by
    rw [List.map_cons, h a (List.mem_cons_self a l),
      list_map_self (fun x hx => h x (List.mem_cons_of_mem a hx))]

/-- Claim C6: updateMatch with an unknown tournament id, or a known
tournament id but an unknown match id, is a silent no-op on the stored
collection. -/
theorem updateMatch_missing_noop (ts : List Tournament) (tid mid : String)
    (u : MatchUpdate)
    (h : ∀ t ∈ ts, t.tid = tid →
      (∀ m ∈ t.matchList, m.mid ≠ mid) ∧ (∀ m ∈ structRounds t, m.mid ≠ mid)) :
    updateMatch ts tid mid u = ts := by
  unfold updateMatch
  have hmain : ∀ t ∈ ts, (if t.tid = tid then updateMatchT mid u t else t) = t := by
    intro t ht
    by_cases htid : t.tid = tid
    · rw [if_pos htid]
      obtain ⟨hflat, hstruct⟩ := h t ht htid
      have hms : t.matchList.map (fun m => if m.mid = mid then applyUpdate u m else m)
          = t.matchList :=
        list_map_self (fun m hmm => if_neg (hflat m hmm))
      cases hmr : t.meta.rounds with
      | none =>
        simp only [updateMatchT, hmr, hms]
      | some rounds =>
        have hrs : rounds.map (fun rnd =>
            rnd.map (fun m => if m.mid = mid then applyUpdate u m else m)) = rounds := by
          refine list_map_self (fun rnd hrnd => ?_)
          refine list_map_self (fun m hmm => if_neg (hstruct m ?_))
          unfold structRounds
          rw [hmr]
          exact List.mem_flatten.mpr ⟨rnd, hrnd, hmm⟩
        have hmeta : ({ t.meta with rounds := some rounds } : Meta) = t.meta := by
          rw [← hmr]
        simp only [updateMatchT, hmr, hms, hrs, hmeta]
    · rw [if_neg htid]
  rw [list_map_self hmain]

-- C7 ---------------------------------------------------------------

theorem filter_pid_ne_erase : ∀ (ps : List Player) (p0 : Player),
    (ps.map Player.pid).Nodup → p0 ∈ ps →
    ps.filter (fun p => !(p.pid == p0.pid)) = ps.erase p0
  | [], _, _, hp => by cases hp
  | q :: rest, p0, hnd, hp => by
    rw [List.map_cons, List.nodup_cons] at hnd
    obtain ⟨hq, hnd2⟩ := hnd
    by_cases hqp : q = p0
    · subst hqp
      rw [List.erase_cons_head, List.filter_cons]
      simp only [beq_self_eq_true, Bool.not_true, Bool.false_eq_true, if_false]
      apply List.filter_eq_self.mpr
      intro p hp2
      have : p.pid ≠ q.pid := by
        intro he
        exact hq (he ▸ List.mem_map_of_mem Player.pid hp2)
      simpa using this
    · have hp2 : p0 ∈ rest := by
        rcases List.mem_cons.mp hp with h2 | h2
        · exact absurd h2.symm hqp
        · exact h2
      have hqpid : q.pid ≠ p0.pid := by
        intro he
        exact hq (he ▸ List.mem_map_of_mem Player.pid hp2)
      rw [List.filter_cons]
      simp only [show (q.pid == p0.pid) = false from beq_eq_false_iff_ne.mpr hqpid,
        Bool.not_false, if_true]
      rw [List.erase_cons_tail (by simpa using hqp),
        filter_pid_ne_erase rest p0 hnd2 hp2]

/-- Claim C7: disqualify removes exactly the player with the given id
from the player list and appends one audit string to the admin notes,
leaving the match list, the structural meta and every other field
unchanged. -/
theorem disqualify_effect (user : Option String) (now : String)
    (t : Tournament) (p0 : Player)
    (hnd : (t.players.map Player.pid).Nodup) (hp : p0 ∈ t.players) :
    (adminActionT user now (.disqualify p0.pid) t).players = t.players.erase p0 ∧
    (adminActionT user now (.disqualify p0.pid) t).adminNotes
      = t.adminNotes ++ [auditNote p0.pid user now] ∧
    (adminActionT user now (.disqualify p0.pid) t).matchList = t.matchList ∧
    (adminActionT user now (.disqualify p0.pid) t).meta = t.meta ∧
    (adminActionT user now (.disqualify p0.pid) t).tid = t.tid ∧
    (adminActionT user now (.disqualify p0.pid) t).title = t.title ∧
    (adminActionT user now (.disqualify p0.pid) t).ttype = t.ttype ∧
    (adminActionT user now (.disqualify p0.pid) t).organizerId = t.organizerId ∧
    (adminActionT user now (.disqualify p0.pid) t).createdAt = t.createdAt ∧
    (adminActionT user now (.disqualify p0.pid) t).scheduleMode = t.scheduleMode ∧
    (adminActionT user now (.disqualify p0.pid) t).chat = t.chat :=
  ⟨filter_pid_ne_erase t.players p0 hnd hp,
   rfl, rfl, rfl, rfl, rfl, rfl, rfl, rfl, rfl, rfl⟩

-- Concrete fixtures -------------------------------------------------

/-- A constant suffix stream for concrete runs. -/
def sig0 : Nat → String := fun _ => "s"

def pA : Player := { pid := some "a", name := "A" }

def pB : Player := { pid := some "b", name := "B" }

def pC : Player := { pid := some "c", name := "C" }

def wMatch : MatchRec :=
  { mid := "m1", players := [pA, pB], score := [0, 0], winner := none,
    scheduledAt := none, tournamentId := none }

def wTour : Tournament :=
  { tid := "t1", title := "W", ttype := "single", organizerId := "o",
    players := [pA, pB], createdAt := "T0", scheduleMode := "manual",
    chat := [], adminNotes := [], matchList := [wMatch],
    meta := { rounds := some [[wMatch]], winners := none, losers := none,
              mtype := none } }

theorem setScore_winner_derivation_witness :
    ∃ ts2, setScore [wTour] wTour wMatch 3 1 = some ts2 ∧
      (∃ t2 ∈ ts2, t2.tid = wTour.tid ∧ ∃ m2 ∈ t2.matchList, m2.mid = wMatch.mid) ∧
      (∀ t2 ∈ ts2, t2.tid = wTour.tid → ∀ m2 ∈ t2.matchList, m2.mid = wMatch.mid →
        m2.score = [3, 1] ∧
        m2.winner = (if (3 : Int) = 1 then none else if (1 : Int) < 3 then pA.pid else pB.pid)) :=
  setScore_winner_derivation [wTour] wTour wMatch pA pB 3 1 rfl
    (List.mem_singleton.mpr rfl) (List.mem_singleton.mpr rfl)

theorem updateMatch_missing_noop_witness :
    updateMatch [wTour] "t1" "zz" { score := some [5, 5], winner := none, scheduledAt := none }
      = [wTour] :=
  updateMatch_missing_noop [wTour] "t1" "zz" _ (by decide)

theorem disqualify_effect_witness :
    (adminActionT (some "u") "T1" (.disqualify pA.pid) wTour).players
      = wTour.players.erase pA ∧
    (adminActionT (some "u") "T1" (.disqualify pA.pid) wTour).adminNotes
      = wTour.adminNotes ++ [auditNote pA.pid (some "u") "T1"] ∧
    (adminActionT (some "u") "T1" (.disqualify pA.pid) wTour).matchList
      = wTour.matchList ∧
    (adminActionT (some "u") "T1" (.disqualify pA.pid) wTour).meta = wTour.meta ∧
    (adminActionT (some "u") "T1" (.disqualify pA.pid) wTour).tid = wTour.tid ∧
    (adminActionT (some "u") "T1" (.disqualify pA.pid) wTour).title = wTour.title ∧
    (adminActionT (some "u") "T1" (.disqualify pA.pid) wTour).ttype = wTour.ttype ∧
    (adminActionT (some "u") "T1" (.disqualify pA.pid) wTour).organizerId
      = wTour.organizerId ∧
    (adminActionT (some "u") "T1" (.disqualify pA.pid) wTour).createdAt
      = wTour.createdAt ∧
    (adminActionT (some "u") "T1" (.disqualify pA.pid) wTour).scheduleMode
      = wTour.scheduleMode ∧
    (adminActionT (some "u") "T1" (.disqualify pA.pid) wTour).chat = wTour.chat :=
  disqualify_effect (some "u") "T1" wTour pA (by decide) (by decide)

-- C2: round counting ------------------------------------------------

theorem initSlots_length (sigma : Nat → String) :
    ∀ (ps : List Player) (c : Nat), (initSlots sigma ps c).1.length = ps.length
  | [], _ => rfl
  | p :: ps, c => by
    simp only [initSlots, List.length_cons]
    rw [initSlots_length sigma ps _]

theorem pairSlots_length (sigma : Nat → String) :
    ∀ (slots : List MatchRec) (c : Nat),
    (pairSlots sigma slots c).1.length = (slots.length + 1) / 2
  | [], _ => rfl
  | [_], _ => by simp [pairSlots]
  | s1 :: s2 :: rest, c => by
    have ih := pairSlots_length sigma rest (c + 1)
    show ((_ : MatchRec) :: (pairSlots sigma rest (c + 1)).1).length = _
    rw [List.length_cons, ih]
    simp only [List.length_cons]
    omega

theorem placeholders_length (sigma : Nat → String) :
    ∀ (ms : List MatchRec) (c : Nat), (placeholders sigma ms c).1.length = ms.length
  | [], _ => rfl
  | _ :: ms, c => by
    simp only [placeholders, uid, List.length_cons]
    rw [placeholders_length sigma ms _]

theorem buildRounds_short (sigma : Nat → String) :
    ∀ (fuel : Nat) (slots : List MatchRec) (c : Nat), slots.length ≤ 1 →
    (buildRounds sigma fuel slots c).1 = []
  | 0, _, _, _ => rfl
  | fuel + 1, slots, c, h => by simp [buildRounds, h]

theorem buildRounds_cons (sigma : Nat → String) (fuel : Nat)
    (slots : List MatchRec) (c : Nat) (h : ¬ slots.length ≤ 1) :
    (buildRounds sigma (fuel + 1) slots c).1
      = (pairSlots sigma slots c).1 ::
        (buildRounds sigma fuel
          (placeholders sigma (pairSlots sigma slots c).1 (pairSlots sigma slots c).2).1
          (placeholders sigma (pairSlots sigma slots c).1 (pairSlots sigma slots c).2).2).1 := by
  simp [buildRounds, h]

theorem buildRounds_length (sigma : Nat → String) :
    ∀ (fuel : Nat) (slots : List MatchRec) (c : Nat), slots.length ≤ fuel →
    (buildRounds sigma fuel slots c).1.length = Nat.clog 2 (max slots.length 1)
  | 0, slots, c, h => by
    have h0 : slots.length = 0 := Nat.le_zero.mp h
    have h1 : max slots.length 1 = 1 := by omega
    rw [h1, Nat.clog_one_right]
    rfl
  | fuel + 1, slots, c, h => by
    by_cases hle : slots.length ≤ 1
    · rw [buildRounds_short sigma _ _ _ hle]
      have h1 : max slots.length 1 = 1 := by omega
      rw [h1, Nat.clog_one_right]
      rfl
    · have hph : (placeholders sigma (pairSlots sigma slots c).1
          (pairSlots sigma slots c).2).1.length = (slots.length + 1) / 2 := by
        rw [placeholders_length, pairSlots_length]
      have hfuel : (placeholders sigma (pairSlots sigma slots c).1
          (pairSlots sigma slots c).2).1.length ≤ fuel := by
        rw [hph]; omega
      have ih := buildRounds_length sigma fuel _
        (placeholders sigma (pairSlots sigma slots c).1 (pairSlots sigma slots c).2).2 hfuel
      rw [buildRounds_cons sigma fuel slots c hle, List.length_cons, ih, hph]
      have h2 : max slots.length 1 = slots.length := by omega
      have h3 : max ((slots.length + 1) / 2) 1 = (slots.length + 1) / 2 := by omega
      have hstep : Nat.clog 2 slots.length
          = Nat.clog 2 ((slots.length + 1) / 2) + 1 := by
        have h4 : slots.length + 2 - 1 = slots.length + 1 := by omega
        rw [Nat.clog_of_two_le (by norm_num) (by omega), h4]
      rw [h2, h3, hstep]

theorem buildRounds_last (sigma : Nat → String) :
    ∀ (fuel : Nat) (slots : List MatchRec) (c : Nat),
    slots.length ≤ fuel → 2 ≤ slots.length →
    ((buildRounds sigma fuel slots c).1.getLast?).map List.length = some 1
  | 0, slots, c, h, h2 => by omega
  | fuel + 1, slots, c, h, h2 => by
    have hle : ¬ slots.length ≤ 1 := by omega
    rw [buildRounds_cons sigma fuel slots c hle]
    have hph : (placeholders sigma (pairSlots sigma slots c).1
        (pairSlots sigma slots c).2).1.length = (slots.length + 1) / 2 := by
      rw [placeholders_length, pairSlots_length]
    by_cases hsm : slots.length = 2
    · have hshort : (buildRounds sigma fuel
          (placeholders sigma (pairSlots sigma slots c).1 (pairSlots sigma slots c).2).1
          (placeholders sigma (pairSlots sigma slots c).1 (pairSlots sigma slots c).2).2).1
          = [] :=
        buildRounds_short sigma fuel _ _ (by rw [hph]; omega)
      rw [hshort]
      simp only [List.getLast?_singleton, Option.map_some']
      rw [pairSlots_length, hsm]
    · have h3 : 3 ≤ slots.length := by omega
      have ih := buildRounds_last sigma fuel
        (placeholders sigma (pairSlots sigma slots c).1 (pairSlots sigma slots c).2).1
        (placeholders sigma (pairSlots sigma slots c).1 (pairSlots sigma slots c).2).2
        (by rw [hph]; omega) (by rw [hph]; omega)
      cases hrest : (buildRounds sigma fuel
          (placeholders sigma (pairSlots sigma slots c).1 (pairSlots sigma slots c).2).1
          (placeholders sigma (pairSlots sigma slots c).1 (pairSlots sigma slots c).2).2).1 with
      | nil =>
        rw [hrest] at ih
        simp at ih
      | cons r rest2 =>
        rw [hrest] at ih
        rw [List.getLast?_cons_cons]
        exact ih

/-- Claim C2: the single-elimination generator returns exactly
`ceil(log2(max(N, 1)))` rounds for `N` input players — zero rounds for
`N ≤ 1` — and for `N ≥ 2` the last round holds exactly one match. -/
theorem generateSingleElim_round_count (shuffle : List Player → List Player)
    (sigma : Nat → String) (players : List Player) (c : Nat)
    (hs : (shuffle players).Perm players) :
    (generateSingleElim shuffle sigma players c).1.length
      = Nat.clog 2 (max players.length 1) ∧
    (2 ≤ players.length →
      ((generateSingleElim shuffle sigma players c).1.getLast?).map List.length
        = some 1) := by
  have hlen : (initSlots sigma (shuffle players) c).1.length = players.length := by
    rw [initSlots_length]
    exact hs.length_eq
  constructor
  · calc (generateSingleElim shuffle sigma players c).1.length
        = Nat.clog 2 (max (initSlots sigma (shuffle players) c).1.length 1) :=
          buildRounds_length sigma
            (initSlots sigma (shuffle players) c).1.length
            (initSlots sigma (shuffle players) c).1
            (initSlots sigma (shuffle players) c).2 (le_refl _)
      _ = Nat.clog 2 (max players.length 1) := by rw [hlen]
  · intro h2
    have := buildRounds_last sigma
      (initSlots sigma (shuffle players) c).1.length
      (initSlots sigma (shuffle players) c).1
      (initSlots sigma (shuffle players) c).2 (le_refl _) (by rw [hlen]; exact h2)
    exact this

theorem generateSingleElim_round_count_witness :
    (generateSingleElim id sig0 [pA, pB, pC] 0).1.length
      = Nat.clog 2 (max ([pA, pB, pC] : List Player).length 1) ∧
    (2 ≤ ([pA, pB, pC] : List Player).length →
      ((generateSingleElim id sig0 [pA, pB, pC] 0).1.getLast?).map List.length
        = some 1) :=
  generateSingleElim_round_count id sig0 [pA, pB, pC] 0 (List.Perm.refl _)

-- C1: two-view consistency ------------------------------------------

theorem sameViewFields_applyUpdate (u : MatchUpdate) (m1 m2 : MatchRec)
    (h : sameViewFields m1 m2) :
    sameViewFields (applyUpdate u m1) (applyUpdate u m2) := by
  obtain ⟨h1, h2, h3, h4⟩ := h
  refine ⟨?_, ?_, ?_, h4⟩ <;> simp [applyUpdate, h1, h2, h3]

theorem upd_fun_mid (mid : String) (u : MatchUpdate) (m : MatchRec) :
    ((fun m2 => if m2.mid = mid then applyUpdate u m2 else m2) m).mid = m.mid := by
  by_cases h : m.mid = mid <;> simp [h, applyUpdate]

theorem upd_fun_consistent (mid : String) (u : MatchUpdate) {m1 m2 : MatchRec}
    (hmid : m1.mid = m2.mid) (h : sameViewFields m1 m2) :
    sameViewFields ((fun m => if m.mid = mid then applyUpdate u m else m) m1)
      ((fun m => if m.mid = mid then applyUpdate u m else m) m2) := by
  by_cases h1 : m1.mid = mid
  · have h2 : m2.mid = mid := hmid ▸ h1
    simp only [if_pos h1, if_pos h2]
    exact sameViewFields_applyUpdate u m1 m2 h
  · have h2 : ¬ m2.mid = mid := fun hh => h1 (hmid ▸ hh)
    simp only [if_neg h1, if_neg h2]
    exact h

theorem ConsistentAll.toR {t : Tournament} (h : ConsistentAll t) : ConsistentR t := by
  intro m1 hm1 m2 hm2 hmid
  refine h m1 hm1 m2 ?_ hmid
  unfold structAll
  exact List.mem_append.mpr (Or.inl (List.mem_append.mpr (Or.inl hm2)))

theorem updateMatchT_preserves_ConsistentR (mid : String) (u : MatchUpdate)
    (t : Tournament) (h : ConsistentR t) : ConsistentR (updateMatchT mid u t) := by
  intro m1 hm1 m2 hm2 hmid
  have hm1' : m1 ∈ t.matchList.map
      (fun m => if m.mid = mid then applyUpdate u m else m) := hm1
  obtain ⟨m0, hm0, he0⟩ := List.mem_map.mp hm1'
  cases hr : t.meta.rounds with
  | none =>
    exfalso
    have : structRounds (updateMatchT mid u t) = [] := by
      simp [structRounds, updateMatchT, hr]
    rw [this] at hm2
    cases hm2
  | some rounds =>
    have hsr : structRounds (updateMatchT mid u t)
        = (rounds.map (fun rnd =>
            rnd.map (fun m => if m.mid = mid then applyUpdate u m else m))).flatten := by
      simp [structRounds, updateMatchT, hr]
    rw [hsr] at hm2
    obtain ⟨rnd2, hrnd2, hm2i⟩ := List.mem_flatten.mp hm2
    obtain ⟨rnd0, hrnd0, he2⟩ := List.mem_map.mp hrnd2
    subst he2
    obtain ⟨m20, hm20, he20⟩ := List.mem_map.mp hm2i
    have hm20s : m20 ∈ structRounds t := by
      unfold structRounds
      rw [hr]
      exact List.mem_flatten.mpr ⟨rnd0, hrnd0, hm20⟩
    subst he0
    subst he20
    have hmid0 : m0.mid = m20.mid := by
      rw [upd_fun_mid mid u m0, upd_fun_mid mid u m20] at hmid
      exact hmid
    exact upd_fun_consistent mid u hmid0 (h m0 hm0 m20 hm20s hmid0)

/-- Claim C1 (amended): updateMatch applies the same patch to the flat
list and to every occurrence inside `meta.rounds`, so flat versus
`meta.rounds` consistency is preserved for every tournament of the
store, and disqualify touches neither view, preserving consistency
against all structural data. The invariant does not extend to the
reschedule admin action, nor to the `meta.winners` / `meta.losers`
views of a double tournament, which updateMatch leaves stale (see the
counterexample). -/
theorem views_consistency_preserved (ts : List Tournament) (tid mid : String)
    (u : MatchUpdate) (pid user : Option String) (now : String)
    (h : ∀ t ∈ ts, ConsistentAll t) :
    (∀ t2 ∈ updateMatch ts tid mid u, ConsistentR t2) ∧
    (∀ t2 ∈ adminAction user now ts tid (.disqualify pid), ConsistentAll t2) := by
  constructor
  · intro t2 ht2
    obtain ⟨t0, ht0, he⟩ := List.mem_map.mp ht2
    by_cases h0 : t0.tid = tid
    · rw [if_pos h0] at he
      subst he
      exact updateMatchT_preserves_ConsistentR mid u t0 (h t0 ht0).toR
    · rw [if_neg h0] at he
      subst he
      exact (h t0 ht0).toR
  · intro t2 ht2
    obtain ⟨t0, ht0, he⟩ := List.mem_map.mp ht2
    by_cases h0 : t0.tid = tid
    · rw [if_pos h0] at he
      subst he
      intro m1 hm1 m2 hm2 hmid
      exact h t0 ht0 m1 hm1 m2 hm2 hmid
    · rw [if_neg h0] at he
      subst he
      exact h t0 ht0

theorem views_consistency_preserved_witness :
    (∀ t2 ∈ updateMatch [wTour] "t1" "m1"
        { score := some [2, 0], winner := some (some "a"), scheduledAt := none },
      ConsistentR t2) ∧
    (∀ t2 ∈ adminAction (some "u") "T1" [wTour] "t1" (.disqualify (some "a")),
      ConsistentAll t2) :=
  views_consistency_preserved [wTour] "t1" "m1" _ (some "a") (some "u") "T1"
    (by decide)

def cexSingle : Tournament :=
  (createTournament id sig0 "T0"
    { title := "t", ttype := "single", organizerId := "o",
      players := [pA, pB], scheduleMode := "manual" } 0).1

def cexDouble : Tournament :=
  (createTournament id sig0 "T0"
    { title := "t", ttype := "double", organizerId := "o",
      players := [pA, pB], scheduleMode := "manual" } 0).1

/-- Claim C1 counterexample: after the reschedule admin action on a
single-elimination tournament the flat list and `meta.rounds` disagree
on `scheduledAt`, and after updateMatch on a double tournament the flat
list and `meta.winners` disagree on `winner` — both operations are
within the scope of the claim and both break the claimed invariant. -/
theorem views_consistency_claim_cex :
    ConsistentAll cexSingle ∧
    ¬ (∀ t2 ∈ adminAction (some "u") "T1" [cexSingle] cexSingle.tid
        (.reschedule ["m_s"] (some "S1")), ConsistentR t2) ∧
    ConsistentAll cexDouble ∧
    ¬ (∀ t2 ∈ updateMatch [cexDouble] cexDouble.tid "m_s"
        { score := none, winner := some (some "a"), scheduledAt := none },
      ConsistentAll t2) := by
  decide

-- Leaderboard bookkeeping -------------------------------------------

/-- The stat delta one processed match applies to the entry at key `k`. -/
def bumpEntry (m : MatchRec) (k : String) (e : LBEntry) : LBEntry :=
  { e with
    wins := e.wins + (if winInd k m then 1 else 0),
    losses := e.losses + (if lossInd k m then 1 else 0),
    points := e.points + (if winInd k m then 3 else 0) }

/-- The stat delta a whole match list applies to the entry at key `k`. -/
def bumpList (ms : List MatchRec) (k : String) (e : LBEntry) : LBEntry :=
  { e with
    wins := e.wins + ms.countP (winInd k),
    losses := e.losses + ms.countP (lossInd k),
    points := e.points + 3 * ms.countP (winInd k) }

theorem bumpEntry_eid (m : MatchRec) (k : String) (e : LBEntry) :
    (bumpEntry m k e).eid = e.eid := rfl

theorem bumpList_nil (k : String) (e : LBEntry) : bumpList [] k e = e := by
  simp [bumpList]

theorem bumpList_cons (m : MatchRec) (ms : List MatchRec) (k : String) (e : LBEntry) :
    bumpList ms k (bumpEntry m k e) = bumpList (m :: ms) k e := by
  simp only [bumpList, bumpEntry, List.countP_cons]
  by_cases h1 : winInd k m <;> by_cases h2 : lossInd k m <;>
    simp [h1, h2] <;> omega

theorem bumpEntry_id (m : MatchRec) (k : String) (e : LBEntry)
    (h1 : winInd k m = false) (h2 : lossInd k m = false) : bumpEntry m k e = e := by
  simp [bumpEntry, h1, h2]

-- lookup and adjust -------------------------------------------------

theorem lookup_isSome_iff_mem : ∀ (acc : LBMap) (k : String),
    (acc.lookup k).isSome = true ↔ k ∈ acc.map Prod.fst
  | [], k => by simp [List.lookup]
  | (k1, e) :: rest, k => by
    by_cases h : k = k1
    · subst h
      simp [List.lookup]
    · simp only [List.lookup, beq_eq_false_iff_ne.mpr h, List.map_cons, List.mem_cons]
      rw [lookup_isSome_iff_mem rest k]
      simp [h]

theorem mem_iff_lookup : ∀ (acc : LBMap), (acc.map Prod.fst).Nodup →
    ∀ (k : String) (e : LBEntry), ((k, e) ∈ acc ↔ acc.lookup k = some e)
  | [], _, k, e => by simp [List.lookup]
  | (k1, e1) :: rest, hnd, k, e => by
    rw [List.map_cons, List.nodup_cons] at hnd
    by_cases h : k = k1
    · subst h
      rw [show List.lookup k ((k, e1) :: rest) = some e1 from by simp [List.lookup]]
      constructor
      · intro hmem
        rcases List.mem_cons.mp hmem with h2 | h2
        · rw [Prod.mk.injEq] at h2
          rw [h2.2]
        · exact absurd (List.mem_map.mpr ⟨(k, e), h2, rfl⟩) hnd.1
      · intro he
        cases Option.some_inj.mp he
        exact List.mem_cons_self _ _
    · rw [show List.lookup k ((k1, e1) :: rest) = List.lookup k rest from by
        simp [List.lookup, beq_eq_false_iff_ne.mpr h]]
      rw [← mem_iff_lookup rest hnd.2 k e]
      constructor
      · intro hmem
        rcases List.mem_cons.mp hmem with h2 | h2
        · rw [Prod.mk.injEq] at h2
          exact absurd h2.1 h
        · exact h2
      · intro hmem
        exact List.mem_cons_of_mem _ hmem

theorem lookup_append : ∀ (l1 l2 : LBMap) (k : String),
    (l1 ++ l2).lookup k
      = match l1.lookup k with
        | some v => some v
        | none => l2.lookup k
  | [], l2, k => by simp [List.lookup]
  | (k1, e1) :: rest, l2, k => by
    by_cases h : k = k1
    · subst h
      simp [List.lookup]
    · simp only [List.cons_append, List.lookup, beq_eq_false_iff_ne.mpr h]
      exact lookup_append rest l2 k

theorem adjust_eq_none : ∀ (acc : LBMap) (k : String) (f : LBEntry → LBEntry),
    adjust k f acc = none ↔ acc.lookup k = none
  | [], k, f => by simp [adjust, List.lookup]
  | (k1, e1) :: rest, k, f => by
    by_cases h : k1 = k
    · subst h
      simp [adjust, List.lookup]
    · simp only [adjust, if_neg h, List.lookup,
        beq_eq_false_iff_ne.mpr (Ne.symm h), Option.map_eq_none']
      exact adjust_eq_none rest k f

theorem adjust_some : ∀ (acc acc2 : LBMap) (k : String) (f : LBEntry → LBEntry),
    adjust k f acc = some acc2 →
    acc2.map Prod.fst = acc.map Prod.fst ∧
    acc2.lookup k = (acc.lookup k).map f ∧
    (∀ k2, k2 ≠ k → acc2.lookup k2 = acc.lookup k2)
  | [], acc2, k, f, h => by simp [adjust] at h
  | (k1, e1) :: rest, acc2, k, f, h => by
    by_cases hk : k1 = k
    · subst hk
      have hred : adjust k1 f ((k1, e1) :: rest) = some ((k1, f e1) :: rest) := by
        simp [adjust]
      rw [hred, Option.some_inj] at h
      subst h
      refine ⟨rfl, ?_, ?_⟩
      · simp [List.lookup]
      · intro k2 hk2
        simp [List.lookup, beq_eq_false_iff_ne.mpr hk2]
    · simp only [adjust, if_neg hk] at h
      cases hadj : adjust k f rest with
      | none => rw [hadj] at h; simp at h
      | some r =>
        rw [hadj] at h
        simp only [Option.map_some', Option.some_inj] at h
        subst h
        obtain ⟨hkeys, hself, hother⟩ := adjust_some rest r k f hadj
        refine ⟨by simp [hkeys], ?_, ?_⟩
        · simp only [List.lookup, beq_eq_false_iff_ne.mpr (Ne.symm hk)]
          exact hself
        · intro k2 hk2
          by_cases h2 : k2 = k1
          · subst h2
            simp [List.lookup]
          · simp only [List.lookup, beq_eq_false_iff_ne.mpr h2]
            exact hother k2 hk2

theorem bumpLoss_map (acc1 acc2 : LBMap) (m : MatchRec) (w : String)
    (hw : truthyWinner m.winner = some w)
    (h : lbLoserStep acc1 m w = some acc2) :
    acc2.map Prod.fst = acc1.map Prod.fst ∧
    ∀ k, acc2.lookup k = (acc1.lookup k).map
      (fun e => { e with losses := e.losses + (if lossInd k m then 1 else 0) }) := by
  unfold lbLoserStep at h
  cases hFL : firstLoser m w with
  | none =>
    rw [hFL] at h
    cases Option.some_inj.mp h
    refine ⟨rfl, fun k => ?_⟩
    have hli : lossInd k m = false := by
      simp [lossInd, firstLoserKey, hw, hFL]
    rw [hli]
    cases hlk : acc1.lookup k <;> simp
  | some loser =>
    rw [hFL] at h
    obtain ⟨hkeys, hself, hother⟩ := adjust_some acc1 acc2 (idKey loser.pid) _ h
    have hne : m.players.isEmpty = false := by
      have hmem := List.mem_of_find?_eq_some hFL
      cases hp : m.players
      · rw [hp] at hmem
        cases hmem
      · simp [hp]
    refine ⟨hkeys, fun k => ?_⟩
    by_cases hk : k = idKey loser.pid
    · rw [hk, hself]
      have hli : lossInd (idKey loser.pid) m = true := by
        simp [lossInd, firstLoserKey, hw, hFL, hne]
      rw [hli]
      cases hlk : acc1.lookup (idKey loser.pid) <;> simp
    · rw [hother k hk]
      have hli : lossInd k m = false := by
        simp only [lossInd, firstLoserKey, hw, hFL, Option.map_some']
        simp [Ne.symm hk]
      rw [hli]
      cases hlk : acc1.lookup k <;> simp

theorem procMatch_some (acc acc2 : LBMap) (m : MatchRec)
    (h : procMatch acc m = some acc2) :
    acc2.map Prod.fst = acc.map Prod.fst ∧
    ∀ k, acc2.lookup k = (acc.lookup k).map (bumpEntry m k) := by
  unfold procMatch at h
  by_cases hemp : m.players.isEmpty
  · rw [if_pos hemp] at h
    cases Option.some_inj.mp h
    refine ⟨rfl, fun k => ?_⟩
    have hw : winInd k m = false := by simp [winInd, hemp]
    have hl : lossInd k m = false := by simp [lossInd, hemp]
    cases hlk : acc.lookup k <;> simp [bumpEntry_id m k _ hw hl]
  · rw [if_neg hemp] at h
    rw [Bool.not_eq_true] at hemp
    cases htw : truthyWinner m.winner with
    | none =>
      rw [htw] at h
      cases Option.some_inj.mp h
      refine ⟨rfl, fun k => ?_⟩
      have hw : winInd k m = false := by simp [winInd, htw]
      have hl : lossInd k m = false := by simp [lossInd, firstLoserKey, htw]
      cases hlk : acc.lookup k <;> simp [bumpEntry_id m k _ hw hl]
    | some w =>
      rw [htw] at h
      obtain ⟨acc1, hadj1, h2⟩ := Option.bind_eq_some.mp h
      obtain ⟨accL, hLs, hadj3⟩ := Option.bind_eq_some.mp h2
      obtain ⟨hkeys1, hself1, hother1⟩ := adjust_some acc acc1 w _ hadj1
      obtain ⟨hkeysL, hlookL⟩ := bumpLoss_map acc1 accL m w htw hLs
      obtain ⟨hkeys3, hself3, hother3⟩ := adjust_some accL acc2 w _ hadj3
      refine ⟨by rw [hkeys3, hkeysL, hkeys1], fun k => ?_⟩
      by_cases hkw : k = w
      · subst hkw
        rw [hself3, hlookL k, hself1]
        have hwi : winInd k m = true := by
          simp [winInd, htw, hemp]
        cases hlk : acc.lookup k <;> simp [bumpEntry, hwi]
      · rw [hother3 k hkw, hlookL k, hother1 k hkw]
        have hwi : winInd k m = false := by
          simp only [winInd, htw, hemp]
          simp [beq_iff_eq, Ne.symm hkw]
        cases hlk : acc.lookup k <;> simp [bumpEntry, hwi]

theorem procMatches_some : ∀ (ms : List MatchRec) (acc acc2 : LBMap),
    procMatches acc ms = some acc2 →
    acc2.map Prod.fst = acc.map Prod.fst ∧
    ∀ k, acc2.lookup k = (acc.lookup k).map (bumpList ms k)
  | [], acc, acc2, h => by
    cases Option.some_inj.mp h
    refine ⟨rfl, fun k => ?_⟩
    cases hlk : acc.lookup k <;> simp [bumpList_nil]
  | m :: ms, acc, acc2, h => by
    unfold procMatches at h
    cases hpm : procMatch acc m with
    | none => rw [hpm] at h; cases h
    | some a1 =>
      rw [hpm] at h
      obtain ⟨hkeys1, hlook1⟩ := procMatch_some acc a1 m hpm
      obtain ⟨hkeys2, hlook2⟩ := procMatches_some ms a1 acc2 h
      refine ⟨by rw [hkeys2, hkeys1], fun k => ?_⟩
      rw [hlook2 k, hlook1 k]
      cases hlk : acc.lookup k with
      | none => simp
      | some e =>
        simp only [Option.map_some']
        rw [bumpList_cons]

theorem procMatch_winner_isSome (acc acc2 : LBMap) (m : MatchRec) (w : String)
    (h : procMatch acc m = some acc2)
    (hne : m.players.isEmpty = false) (hw : truthyWinner m.winner = some w) :
    (acc.lookup w).isSome = true ∧
    (∀ p, firstLoser m w = some p → (acc.lookup (idKey p.pid)).isSome = true) := by
  unfold procMatch at h
  rw [if_neg (by rw [hne]; exact Bool.false_ne_true), hw] at h
  obtain ⟨acc1, hadj1, h2⟩ := Option.bind_eq_some.mp h
  obtain ⟨accL, hLs, hadj3⟩ := Option.bind_eq_some.mp h2
  obtain ⟨hkeys1, hself1, hother1⟩ := adjust_some acc acc1 w _ hadj1
  constructor
  · by_contra hns
    rw [Option.not_isSome_iff_eq_none] at hns
    rw [(adjust_eq_none acc w _).mpr hns] at hadj1
    cases hadj1
  · intro p hp
    unfold lbLoserStep at hLs
    rw [hp] at hLs
    have hLs2 : adjust (idKey p.pid) (fun e => { e with losses := e.losses + 1 }) acc1
        = some accL := hLs
    have hs1 : (acc1.lookup (idKey p.pid)).isSome = true := by
      by_contra hns
      rw [Option.not_isSome_iff_eq_none] at hns
      rw [(adjust_eq_none acc1 (idKey p.pid) _).mpr hns] at hLs2
      cases hLs2
    rw [lookup_isSome_iff_mem, hkeys1] at hs1
    rw [lookup_isSome_iff_mem]
    exact hs1

theorem procMatch_crashfree (acc : LBMap) (m : MatchRec)
    (hok : ∀ w, m.players.isEmpty = false → truthyWinner m.winner = some w →
      (acc.lookup w).isSome = true ∧
      (∀ p, firstLoser m w = some p → (acc.lookup (idKey p.pid)).isSome = true)) :
    ∃ acc2, procMatch acc m = some acc2 := by
  unfold procMatch
  by_cases hemp : m.players.isEmpty
  · rw [if_pos hemp]
    exact ⟨acc, rfl⟩
  · rw [if_neg hemp]
    rw [Bool.not_eq_true] at hemp
    cases htw : truthyWinner m.winner with
    | none => exact ⟨acc, rfl⟩
    | some w =>
      obtain ⟨hw1, hw2⟩ := hok w hemp htw
      obtain ⟨e1, he1⟩ := Option.isSome_iff_exists.mp hw1
      cases hadj1 : adjust w (fun e => { e with wins := e.wins + 1 }) acc with
      | none =>
        rw [(adjust_eq_none acc w _).mp hadj1] at he1
        cases he1
      | some acc1 =>
        obtain ⟨hkeys1, hself1, hother1⟩ := adjust_some acc acc1 w _ hadj1
        have hsome1 : ∀ k, (acc1.lookup k).isSome = (acc.lookup k).isSome := by
          intro k
          by_cases hb1 : (acc1.lookup k).isSome = true <;>
            by_cases hb2 : (acc.lookup k).isSome = true
          · rw [hb1, hb2]
          · rw [lookup_isSome_iff_mem, hkeys1, ← lookup_isSome_iff_mem] at hb1
            exact absurd hb1 hb2
          · rw [lookup_isSome_iff_mem, hkeys1, ← lookup_isSome_iff_mem] at hb1
            exact absurd hb2 hb1
          · rw [Bool.not_eq_true] at hb1 hb2
            rw [hb1, hb2]
        cases hLs : lbLoserStep acc1 m w with
        | none =>
          exfalso
          unfold lbLoserStep at hLs
          cases hFL : firstLoser m w with
          | none => rw [hFL] at hLs; cases hLs
          | some p =>
            rw [hFL] at hLs
            have := hw2 p hFL
            rw [← hsome1 (idKey p.pid)] at this
            rw [Option.isSome_iff_exists] at this
            obtain ⟨eL, heL⟩ := this
            rw [(adjust_eq_none acc1 (idKey p.pid) _).mp hLs] at heL
            cases heL
        | some accL =>
          obtain ⟨hkeysL, hlookL⟩ := bumpLoss_map acc1 accL m w htw hLs
          cases hadj3 : adjust w (fun e => { e with points := e.points + 3 }) accL with
          | none =>
            exfalso
            have hsw : (accL.lookup w).isSome = true := by
              rw [lookup_isSome_iff_mem, hkeysL, hkeys1, ← lookup_isSome_iff_mem]
              exact hw1
            rw [Option.isSome_iff_exists] at hsw
            obtain ⟨eP, heP⟩ := hsw
            rw [(adjust_eq_none accL w _).mp hadj3] at heP
            cases heP
          | some acc2 =>
            refine ⟨acc2, ?_⟩
            show (adjust w (fun e => { e with wins := e.wins + 1 }) acc).bind
              (fun a1 => (lbLoserStep a1 m w).bind (fun a2 =>
                adjust w (fun e => { e with points := e.points + 3 }) a2)) = some acc2
            rw [hadj1, Option.some_bind, hLs, Option.some_bind, hadj3]

theorem procMatches_unreg : ∀ (ms : List MatchRec) (acc acc2 : LBMap) (k : String),
    procMatches acc ms = some acc2 → acc.lookup k = none →
    ms.countP (winInd k) = 0 ∧ ms.countP (lossInd k) = 0
  | [], _, _, _, _, _ => ⟨rfl, rfl⟩
  | m :: ms, acc, acc2, k, h, hnone => by
    unfold procMatches at h
    cases hpm : procMatch acc m with
    | none => rw [hpm] at h; cases h
    | some a1 =>
      rw [hpm] at h
      obtain ⟨hkeys1, hlook1⟩ := procMatch_some acc a1 m hpm
      have hnone1 : a1.lookup k = none := by
        rw [hlook1 k, hnone]
        rfl
      obtain ⟨ihw, ihl⟩ := procMatches_unreg ms a1 acc2 k h hnone1
      have hwi : winInd k m = false := by
        by_contra hc
        rw [Bool.not_eq_false] at hc
        have hne : m.players.isEmpty = false := by
          rcases Bool.and_eq_true .. |>.mp hc with ⟨h1, -⟩
          simpa using h1
        have htw : truthyWinner m.winner = some k := by
          rcases Bool.and_eq_true .. |>.mp hc with ⟨-, h2⟩
          cases htww : truthyWinner m.winner with
          | none => rw [htww] at h2; cases h2
          | some w2 =>
            rw [htww, beq_iff_eq] at h2
            exact h2
        have := (procMatch_winner_isSome acc a1 m k hpm hne htw).1
        rw [hnone] at this
        cases this
      have hli : lossInd k m = false := by
        by_contra hc
        rw [Bool.not_eq_false] at hc
        have hne : m.players.isEmpty = false := by
          rcases Bool.and_eq_true .. |>.mp hc with ⟨h1, -⟩
          simpa using h1
        rcases Bool.and_eq_true .. |>.mp hc with ⟨-, h2⟩
        rw [beq_iff_eq] at h2
        cases htww : truthyWinner m.winner with
        | none =>
          rw [show firstLoserKey m = none from by simp [firstLoserKey, htww]] at h2
          cases h2
        | some w2 =>
          have hfl : (firstLoser m w2).map (fun p => idKey p.pid) = some k := by
            rw [← h2]
            simp [firstLoserKey, htww]
          cases hFL : firstLoser m w2 with
          | none => rw [hFL] at hfl; cases hfl
          | some p =>
            rw [hFL] at hfl
            have hpk : idKey p.pid = k := Option.some_inj.mp hfl
            have := (procMatch_winner_isSome acc a1 m w2 hpm hne htww).2 p hFL
            rw [hpk, hnone] at this
            cases this
      rw [List.countP_cons, List.countP_cons, hwi, hli]
      simp [ihw, ihl]

-- regPlayers ---------------------------------------------------------

theorem regPlayers_lookup_some : ∀ (ps : List Player) (acc : LBMap) (k : String)
    (e : LBEntry), acc.lookup k = some e → (regPlayers acc ps).lookup k = some e
  | [], _, _, _, h => h
  | p :: ps, acc, k, e, h => by
    unfold regPlayers
    by_cases hr : (acc.lookup (idKey p.pid)).isSome
    · rw [if_pos hr]
      exact regPlayers_lookup_some ps acc k e h
    · rw [if_neg hr]
      refine regPlayers_lookup_some ps _ k e ?_
      rw [lookup_append, h]

theorem regPlayers_keys_nodup : ∀ (ps : List Player) (acc : LBMap),
    (acc.map Prod.fst).Nodup → ((regPlayers acc ps).map Prod.fst).Nodup
  | [], _, h => h
  | p :: ps, acc, h => by
    unfold regPlayers
    by_cases hr : (acc.lookup (idKey p.pid)).isSome
    · rw [if_pos hr]
      exact regPlayers_keys_nodup ps acc h
    · rw [if_neg hr]
      refine regPlayers_keys_nodup ps _ ?_
      rw [List.map_append]
      simp only [List.map_cons, List.map_nil]
      rw [List.nodup_append]
      refine ⟨h, List.nodup_singleton _, ?_⟩
      intro k1 hk1 hk2
      rw [List.mem_singleton] at hk2
      subst hk2
      exact hr (by rw [lookup_isSome_iff_mem]; exact hk1)

theorem regPlayers_lookup_isSome : ∀ (ps : List Player) (acc : LBMap) (k : String),
    (((regPlayers acc ps).lookup k).isSome = true
      ↔ (acc.lookup k).isSome = true ∨ k ∈ ps.map (fun p => idKey p.pid))
  | [], acc, k => by simp [regPlayers]
  | p :: ps, acc, k => by
    unfold regPlayers
    rw [List.map_cons, List.mem_cons]
    by_cases hr : (acc.lookup (idKey p.pid)).isSome
    · rw [if_pos hr, regPlayers_lookup_isSome ps acc k]
      constructor
      · rintro (h1 | h2)
        · exact Or.inl h1
        · exact Or.inr (Or.inr h2)
      · rintro (h1 | h2 | h3)
        · exact Or.inl h1
        · subst h2
          exact Or.inl hr
        · exact Or.inr h3
    · rw [if_neg hr, regPlayers_lookup_isSome ps _ k]
      have happ : ((acc ++ [(idKey p.pid,
          ({ eid := p.pid, name := p.name, wins := 0, losses := 0,
             points := 0 } : LBEntry))]).lookup
            k).isSome = true
          ↔ (acc.lookup k).isSome = true ∨ k = idKey p.pid := by
        rw [lookup_append]
        cases hlk : acc.lookup k with
        | some e => simp
        | none =>
          simp only [Option.isSome_none, Bool.false_eq_true, false_or]
          by_cases hk : k = idKey p.pid
          · subst hk
            simp [List.lookup]
          · simp [List.lookup, beq_eq_false_iff_ne.mpr hk, hk]
      rw [happ]
      tauto

theorem regPlayers_lookup_new : ∀ (ps : List Player) (acc : LBMap) (k : String)
    (e : LBEntry), acc.lookup k = none → (regPlayers acc ps).lookup k = some e →
    e.wins = 0 ∧ e.losses = 0 ∧ e.points = 0 ∧ idKey e.eid = k
  | [], acc, k, e, hn, h => by
    unfold regPlayers at h
    rw [hn] at h
    cases h
  | p :: ps, acc, k, e, hn, h => by
    unfold regPlayers at h
    by_cases hr : (acc.lookup (idKey p.pid)).isSome
    · rw [if_pos hr] at h
      exact regPlayers_lookup_new ps acc k e hn h
    · rw [if_neg hr] at h
      by_cases hk : k = idKey p.pid
      · subst hk
        have hfound : (acc ++ [(idKey p.pid,
            ({ eid := p.pid, name := p.name, wins := 0, losses := 0,
               points := 0 } : LBEntry))]).lookup
              (idKey p.pid)
            = some ({ eid := p.pid, name := p.name, wins := 0, losses := 0,
                      points := 0 } : LBEntry) := by
          rw [lookup_append, hn]
          simp [List.lookup]
        have := regPlayers_lookup_some ps _ _ _ hfound
        rw [this] at h
        cases Option.some_inj.mp h
        exact ⟨rfl, rfl, rfl, rfl⟩
      · refine regPlayers_lookup_new ps _ k e ?_ h
        rw [lookup_append, hn]
        simp [List.lookup, beq_eq_false_iff_ne.mpr hk]

-- invariant over the tournament fold ---------------------------------

theorem allMatches_append (ts1 ts2 : List Tournament) :
    allMatches (ts1 ++ ts2) = allMatches ts1 ++ allMatches ts2 := by
  unfold allMatches
  rw [List.flatMap_append]

theorem allMatches_single (t : Tournament) : allMatches [t] = t.matchList := by
  simp [allMatches]

theorem winCount_append_single (k : String) (ts : List Tournament) (t : Tournament) :
    winCount k (ts ++ [t]) = winCount k ts + t.matchList.countP (winInd k) := by
  unfold winCount
  rw [allMatches_append, List.countP_append, allMatches_single]

theorem lossCount_append_single (k : String) (ts : List Tournament) (t : Tournament) :
    lossCount k (ts ++ [t]) = lossCount k ts + t.matchList.countP (lossInd k) := by
  unfold lossCount
  rw [allMatches_append, List.countP_append, allMatches_single]

theorem regKeys_append_single (ts : List Tournament) (t : Tournament) :
    regKeys (ts ++ [t]) = regKeys ts ++ t.players.map (fun p => idKey p.pid) := by
  unfold regKeys
  rw [List.flatMap_append]
  simp

theorem bumpList_eid (ms : List MatchRec) (k : String) (e : LBEntry) :
    (bumpList ms k e).eid = e.eid := rfl

/-- The invariant `computeLeaderboard` maintains over its accumulator
after processing a prefix of tournaments. -/
def LBInv (ts : List Tournament) (acc : LBMap) : Prop :=
  (acc.map Prod.fst).Nodup ∧
  (∀ k, (acc.lookup k).isSome = true ↔ k ∈ regKeys ts) ∧
  (∀ k e, acc.lookup k = some e →
    e.wins = winCount k ts ∧ e.losses = lossCount k ts ∧
    e.points = 3 * e.wins ∧ idKey e.eid = k) ∧
  (∀ k, acc.lookup k = none → winCount k ts = 0 ∧ lossCount k ts = 0)

theorem procTournament_inv (done : List Tournament) (t : Tournament)
    (acc a1 : LBMap) (h : procTournament acc t = some a1) (hinv : LBInv done acc) :
    LBInv (done ++ [t]) a1 := by
  obtain ⟨hnd, hsome, hstats, hunreg⟩ := hinv
  unfold procTournament at h
  obtain ⟨hkeysM, hlookM⟩ := procMatches_some t.matchList (regPlayers acc t.players) a1 h
  refine ⟨?_, ?_, ?_, ?_⟩
  · rw [hkeysM]
    exact regPlayers_keys_nodup t.players acc hnd
  · intro k
    rw [regKeys_append_single, List.mem_append]
    have hiso : (a1.lookup k).isSome
        = ((regPlayers acc t.players).lookup k).isSome := by
      rw [hlookM k]
      cases hlk : (regPlayers acc t.players).lookup k <;> simp
    rw [hiso, regPlayers_lookup_isSome, hsome k]
  · intro k e h1
    rw [hlookM k] at h1
    obtain ⟨e0, he0, hbe⟩ := Option.map_eq_some'.mp h1
    subst hbe
    cases hacc : acc.lookup k with
    | some eA =>
      have he0A : e0 = eA := by
        have := regPlayers_lookup_some t.players acc k eA hacc
        rw [this] at he0
        exact (Option.some_inj.mp he0).symm
      subst he0A
      obtain ⟨hw, hl, hp, hk⟩ := hstats k e0 hacc
      refine ⟨?_, ?_, ?_, ?_⟩
      · rw [winCount_append_single]
        simp only [bumpList]
        omega
      · rw [lossCount_append_single]
        simp only [bumpList]
        omega
      · simp only [bumpList]
        omega
      · rw [bumpList_eid]
        exact hk
    | none =>
      obtain ⟨hw0, hl0, hp0, hk0⟩ := regPlayers_lookup_new t.players acc k e0 hacc he0
      obtain ⟨hwc, hlc⟩ := hunreg k hacc
      refine ⟨?_, ?_, ?_, ?_⟩
      · rw [winCount_append_single, hwc]
        simp only [bumpList]
        omega
      · rw [lossCount_append_single, hlc]
        simp only [bumpList]
        omega
      · simp only [bumpList]
        omega
      · rw [bumpList_eid]
        exact hk0
  · intro k hk
    rw [hlookM k] at hk
    have hacc' : (regPlayers acc t.players).lookup k = none := by
      cases hlk : (regPlayers acc t.players).lookup k with
      | none => rfl
      | some e0 =>
        rw [hlk] at hk
        cases hk
    have hacc : acc.lookup k = none := by
      cases hlk : acc.lookup k with
      | none => rfl
      | some e0 =>
        have := regPlayers_lookup_some t.players acc k e0 hlk
        rw [this] at hacc'
        cases hacc'
    obtain ⟨hwc, hlc⟩ := hunreg k hacc
    obtain ⟨hwt, hlt⟩ := procMatches_unreg t.matchList _ a1 k h hacc'
    rw [winCount_append_single, lossCount_append_single, hwc, hlc, hwt, hlt]
    exact ⟨rfl, rfl⟩

theorem procAll_inv : ∀ (rest done : List Tournament) (acc acc2 : LBMap),
    procAll acc rest = some acc2 → LBInv done acc → LBInv (done ++ rest) acc2
  | [], done, acc, acc2, h, hinv => by
    cases Option.some_inj.mp h
    rw [List.append_nil]
    exact hinv
  | t :: rest, done, acc, acc2, h, hinv => by
    unfold procAll at h
    cases hpt : procTournament acc t with
    | none => rw [hpt] at h; cases h
    | some a1 =>
      rw [hpt] at h
      have h1 := procTournament_inv done t acc a1 hpt hinv
      have h2 := procAll_inv rest (done ++ [t]) a1 acc2 h h1
      rw [List.append_assoc] at h2
      exact h2

theorem LBInv_nil : LBInv [] [] := by
  refine ⟨List.nodup_nil, ?_, ?_, ?_⟩
  · intro k
    simp [List.lookup, regKeys]
  · intro k e h
    cases h
  · intro k h
    exact ⟨rfl, rfl⟩

theorem countP_key_nodup : ∀ (acc : LBMap), (acc.map Prod.fst).Nodup → ∀ k : String,
    acc.countP (fun kv => kv.1 == k) = if k ∈ acc.map Prod.fst then 1 else 0
  | [], _, k => by simp
  | (k1, e1) :: rest, hnd, k => by
    rw [List.map_cons, List.nodup_cons] at hnd
    rw [List.countP_cons, countP_key_nodup rest hnd.2 k]
    by_cases hk : k1 = k
    · subst hk
      have hnr : k1 ∉ rest.map Prod.fst := hnd.1
      simp [hnr]
    · have hmi : (k ∈ k1 :: rest.map Prod.fst) ↔ k ∈ rest.map Prod.fst := by
        rw [List.mem_cons]
        simp [Ne.symm hk]
      have hne : ¬ ((k1 == k) = true) := by simp [hk]
      rw [if_neg hne, Nat.add_zero]
      simp only [List.map_cons]
      exact if_congr hmi.symm rfl rfl

/-- Claim C5 (amended): whenever computeLeaderboard returns (no lookup
misses), it returns exactly one entry per distinct registered player-id
key; each entry has wins equal to the number of matches with a
non-empty player list whose truthy recorded winner is that key, points
equal to three times wins, and losses equal to the number of matches
with a non-empty player list and truthy winner whose first listed
participant with an id different from the winner has that key; the
result is sorted descending by points with ties broken by descending
wins. -/
theorem computeLeaderboard_aggregation (ts : List Tournament) (res : List LBEntry)
    (h : computeLeaderboard ts = some res) :
    (∀ k : String, res.countP (fun e => idKey e.eid == k)
      = if k ∈ regKeys ts then 1 else 0) ∧
    (∀ e ∈ res, e.wins = winCount (idKey e.eid) ts ∧
      e.points = 3 * e.wins ∧ e.losses = lossCount (idKey e.eid) ts) ∧
    List.Sorted lbRel res := by
  unfold computeLeaderboard at h
  cases hpa : procAll [] ts with
  | none => rw [hpa] at h; cases h
  | some acc =>
    rw [hpa] at h
    simp only [Option.map_some', Option.some_inj] at h
    subst h
    have hinv := procAll_inv ts [] [] acc hpa LBInv_nil
    rw [List.nil_append] at hinv
    obtain ⟨hnd, hsome, hstats, hunreg⟩ := hinv
    have hperm : (lbSort (acc.map (fun kv => kv.2))).Perm (acc.map (fun kv => kv.2)) :=
      List.perm_insertionSort lbRel _
    refine ⟨?_, ?_, ?_⟩
    · intro k
      rw [hperm.countP_eq, List.countP_map]
      have hcong : acc.countP ((fun e => idKey e.eid == k) ∘ (fun kv => kv.2))
          = acc.countP (fun kv => kv.1 == k) := by
        refine List.countP_congr ?_
        intro kv hkv
        have hl : acc.lookup kv.1 = some kv.2 :=
          (mem_iff_lookup acc hnd kv.1 kv.2).mp hkv
        have hkey := (hstats kv.1 kv.2 hl).2.2.2
        simp only [Function.comp_apply, beq_iff_eq, hkey]
      rw [hcong, countP_key_nodup acc hnd k]
      have hmemiff : k ∈ acc.map Prod.fst ↔ k ∈ regKeys ts := by
        rw [← lookup_isSome_iff_mem]
        exact hsome k
      by_cases hk : k ∈ regKeys ts
      · rw [if_pos hk, if_pos (hmemiff.mpr hk)]
      · rw [if_neg hk, if_neg (fun hc => hk (hmemiff.mp hc))]
    · intro e he
      have hmem : e ∈ acc.map (fun kv => kv.2) := hperm.mem_iff.mp he
      obtain ⟨kv, hkv, hkve⟩ := List.mem_map.mp hmem
      have hl : acc.lookup kv.1 = some kv.2 :=
        (mem_iff_lookup acc hnd kv.1 kv.2).mp hkv
      obtain ⟨hw, hlo, hp, hk⟩ := hstats kv.1 kv.2 hl
      subst hkve
      rw [hk]
      exact ⟨hw, hp, hlo⟩
    · exact List.sorted_insertionSort lbRel _

-- C5 fixtures, witness and counterexample ---------------------------

def mt0 : Meta := { rounds := none, winners := none, losers := none, mtype := none }

def mGood1 : MatchRec :=
  { mid := "g1", players := [pA, pB], score := [3, 1], winner := some "a",
    scheduledAt := none, tournamentId := none }

def mGood2 : MatchRec :=
  { mid := "g2", players := [pA, pC], score := [0, 2], winner := some "c",
    scheduledAt := none, tournamentId := none }

def tGood1 : Tournament :=
  { tid := "tA", title := "A", ttype := "single", organizerId := "o",
    players := [pA, pB], createdAt := "T0", scheduleMode := "manual",
    chat := [], adminNotes := [], matchList := [mGood1], meta := mt0 }

def tGood2 : Tournament :=
  { tid := "tB", title := "B", ttype := "single", organizerId := "o",
    players := [pA, pC], createdAt := "T0", scheduleMode := "manual",
    chat := [], adminNotes := [], matchList := [mGood2], meta := mt0 }

def lbGoodRes : List LBEntry :=
  [{ eid := some "a", name := "A", wins := 1, losses := 1, points := 3 },
   { eid := some "c", name := "C", wins := 1, losses := 0, points := 3 },
   { eid := some "b", name := "B", wins := 0, losses := 1, points := 0 }]

theorem computeLeaderboard_aggregation_witness :
    (∀ k : String, lbGoodRes.countP (fun e => idKey e.eid == k)
      = if k ∈ regKeys [tGood1, tGood2] then 1 else 0) ∧
    (∀ e ∈ lbGoodRes, e.wins = winCount (idKey e.eid) [tGood1, tGood2] ∧
      e.points = 3 * e.wins ∧ e.losses = lossCount (idKey e.eid) [tGood1, tGood2]) ∧
    List.Sorted lbRel lbGoodRes :=
  computeLeaderboard_aggregation [tGood1, tGood2] lbGoodRes (by decide)

def mBad : MatchRec :=
  { mid := "x1", players := [pB, pC], score := [0, 0], winner := some "a",
    scheduledAt := none, tournamentId := none }

def tBad : Tournament :=
  { tid := "tX", title := "X", ttype := "single", organizerId := "o",
    players := [pA, pB, pC], createdAt := "T0", scheduleMode := "manual",
    chat := [], adminNotes := [], matchList := [mBad], meta := mt0 }

/-- Claim C5 counterexample: in `tBad` the match lists players B and C
but records the winner id of A, who is not a participant. The claim
says neither B nor C loses (no other participant won), yet the code
debits one loss to B, the first listed participant whose id differs
from the winner. -/
theorem computeLeaderboard_claim_cex :
    (computeLeaderboard [tBad]).map (fun l => l.map (fun e => (e.eid, e.losses)))
      = some [(some "a", 0), (some "b", 1), (some "c", 0)] ∧
    specLossCount (some "b") [tBad] = 0 ∧
    ¬ ((computeLeaderboard [tBad]).map (fun l => l.map (fun e => (e.eid, e.losses)))
        = some [(some "a", 0), (some "b", specLossCount (some "b") [tBad]),
                (some "c", 0)]) := by
  refine ⟨by decide, by decide, ?_⟩
  intro h
  have h1 : specLossCount (some "b") [tBad] = 0 := by decide
  rw [h1] at h
  have h2 : ¬ ((computeLeaderboard [tBad]).map (fun l => l.map (fun e => (e.eid, e.losses)))
      = some [(some "a", 0), (some "b", 0), (some "c", 0)]) := by decide
  exact h2 h

-- C10: totality conditions -------------------------------------------

/-- The order-aware registration precondition: for every match with a
recorded winner, the winner id and every participant id appear among
the players of the owning tournament or of an earlier one. -/
def LbPreOrd : List Player → List Tournament → Prop
  | _, [] => True
  | seen, t :: rest =>
    (∀ m ∈ t.matchList, ∀ w, m.winner = some w →
      ((∃ p ∈ seen ++ t.players, p.pid = some w) ∧
       (∀ q ∈ m.players, ∃ p ∈ seen ++ t.players, p.pid = q.pid))) ∧
    LbPreOrd (seen ++ t.players) rest

def lbPreOrdDec : ∀ (seen : List Player) (ts : List Tournament),
    Decidable (LbPreOrd seen ts)
  | _, [] => .isTrue trivial
  | seen, t :: rest =>
    haveI : Decidable (LbPreOrd (seen ++ t.players) rest) :=
      lbPreOrdDec (seen ++ t.players) rest
    inferInstanceAs (Decidable (_ ∧ _))

instance (seen : List Player) (ts : List Tournament) :
    Decidable (LbPreOrd seen ts) := lbPreOrdDec seen ts

theorem procMatches_crashfree : ∀ (ms : List MatchRec) (acc : LBMap),
    (∀ m ∈ ms, ∀ w, m.players.isEmpty = false → truthyWinner m.winner = some w →
      (acc.lookup w).isSome = true ∧
      (∀ p, firstLoser m w = some p → (acc.lookup (idKey p.pid)).isSome = true)) →
    ∃ acc2, procMatches acc ms = some acc2
  | [], acc, _ => ⟨acc, rfl⟩
  | m :: ms, acc, hok => by
    obtain ⟨a1, ha1⟩ := procMatch_crashfree acc m (hok m (List.mem_cons_self _ _))
    obtain ⟨hkeys1, -⟩ := procMatch_some acc a1 m ha1
    have hok2 : ∀ m2 ∈ ms, ∀ w, m2.players.isEmpty = false →
        truthyWinner m2.winner = some w →
        (a1.lookup w).isSome = true ∧
        (∀ p, firstLoser m2 w = some p → (a1.lookup (idKey p.pid)).isSome = true) := by
      intro m2 hm2 w hne hw
      obtain ⟨h1, h2⟩ := hok m2 (List.mem_cons_of_mem _ hm2) w hne hw
      constructor
      · rw [lookup_isSome_iff_mem, hkeys1, ← lookup_isSome_iff_mem]
        exact h1
      · intro p hp
        rw [lookup_isSome_iff_mem, hkeys1, ← lookup_isSome_iff_mem]
        exact h2 p hp
    obtain ⟨acc2, hacc2⟩ := procMatches_crashfree ms a1 hok2
    refine ⟨acc2, ?_⟩
    unfold procMatches
    rw [ha1]
    exact hacc2

theorem procAll_crashfree : ∀ (rest : List Tournament) (seen : List Player)
    (acc : LBMap), LbPreOrd seen rest →
    (∀ p ∈ seen, (acc.lookup (idKey p.pid)).isSome = true) →
    ∃ acc2, procAll acc rest = some acc2
  | [], _, acc, _, _ => ⟨acc, rfl⟩
  | t :: rest, seen, acc, hpre, hseen => by
    obtain ⟨hpre1, hpre2⟩ := hpre
    have hseen2 : ∀ p ∈ seen ++ t.players,
        ((regPlayers acc t.players).lookup (idKey p.pid)).isSome = true := by
      intro p hp
      rw [regPlayers_lookup_isSome]
      rcases List.mem_append.mp hp with hp | hp
      · exact Or.inl (hseen p hp)
      · exact Or.inr (List.mem_map_of_mem _ hp)
    have hok : ∀ m ∈ t.matchList, ∀ w, m.players.isEmpty = false →
        truthyWinner m.winner = some w →
        (((regPlayers acc t.players).lookup w).isSome = true ∧
         ∀ p, firstLoser m w = some p →
           ((regPlayers acc t.players).lookup (idKey p.pid)).isSome = true) := by
      intro m hm w hne htw
      have hwin : m.winner = some w := by
        cases hmw : m.winner with
        | none =>
          rw [hmw] at htw
          cases htw
        | some s =>
          rw [hmw] at htw
          have htw2 : (if s = "" then none else some s : Option String) = some w := htw
          by_cases hs : s = ""
          · rw [if_pos hs] at htw2
            cases htw2
          · rw [if_neg hs] at htw2
            exact htw2
      obtain ⟨⟨pw, hpw, hpww⟩, hparts⟩ := hpre1 m hm w hwin
      constructor
      · have h1 := hseen2 pw hpw
        rw [hpww] at h1
        exact h1
      · intro p hp
        obtain ⟨pq, hpq, hpqe⟩ := hparts p (List.mem_of_find?_eq_some hp)
        have h1 := hseen2 pq hpq
        rw [hpqe] at h1
        exact h1
    obtain ⟨a1, ha1⟩ := procMatches_crashfree t.matchList _ hok
    obtain ⟨hkeys1, -⟩ := procMatches_some t.matchList _ a1 ha1
    have hseen3 : ∀ p ∈ seen ++ t.players, (a1.lookup (idKey p.pid)).isSome = true := by
      intro p hp
      rw [lookup_isSome_iff_mem, hkeys1, ← lookup_isSome_iff_mem]
      exact hseen2 p hp
    obtain ⟨acc2, hacc2⟩ := procAll_crashfree rest (seen ++ t.players) a1 hpre2 hseen3
    refine ⟨acc2, ?_⟩
    unfold procAll procTournament
    rw [ha1]
    exact hacc2

def tCross1 : Tournament :=
  { tid := "u1", title := "U1", ttype := "single", organizerId := "o",
    players := [], createdAt := "T0", scheduleMode := "manual",
    chat := [], adminNotes := [],
    matchList := [{ mid := "c1", players := [pA], score := [0, 0],
                    winner := some "a", scheduledAt := none, tournamentId := none }],
    meta := mt0 }

def tCross2 : Tournament :=
  { tid := "u2", title := "U2", ttype := "single", organizerId := "o",
    players := [pA], createdAt := "T0", scheduleMode := "manual",
    chat := [], adminNotes := [], matchList := [], meta := mt0 }

/-- Claim C10 counterexample: the claimed precondition — the winner id
and the participant ids appear in the players list of at least one
input tournament — holds for this input, yet the aggregation still
reaches the lookup error branch, because the registering tournament
comes later in the sequence than the match that references it. -/
theorem computeLeaderboard_precondition_cex :
    LbPre [tCross1, tCross2] ∧ computeLeaderboard [tCross1, tCross2] = none := by
  decide

def tCrash : Tournament :=
  { tid := "tY", title := "Y", ttype := "single", organizerId := "o",
    players := [pB, pC], createdAt := "T0", scheduleMode := "manual",
    chat := [], adminNotes := [], matchList := [mBad], meta := mt0 }

/-- Claim C10 (amended): computeLeaderboard is total under the
order-aware precondition that every recorded winner id and every
participant id of a match with a recorded winner appears among the
players of the owning tournament or of an earlier one; and for an
input violating the registration requirement — here a recorded winner
that appears in no players list, as after a disqualification — the
lookup error branch is reached. -/
theorem computeLeaderboard_totality :
    (∀ ts, LbPreOrd [] ts → (computeLeaderboard ts).isSome = true) ∧
    (¬ LbPre [tCrash] ∧ computeLeaderboard [tCrash] = none) := by
  constructor
  · intro ts hpre
    obtain ⟨acc2, hacc2⟩ := procAll_crashfree ts [] [] hpre (by intro p hp; cases hp)
    unfold computeLeaderboard
    rw [hacc2]
    rfl
  · exact ⟨by decide, by decide⟩

theorem computeLeaderboard_totality_witness :
    (computeLeaderboard [tGood1, tGood2]).isSome = true :=
  computeLeaderboard_totality.1 [tGood1, tGood2] (by decide)

-- C3: round-robin rotation arithmetic --------------------------------

theorem rrRotate_cons (a b : Player) (l : List Player) :
    rrRotate (a :: b :: l)
      = a :: (b :: l).getLast (by simp) :: (b :: l).dropLast := by
  show (match (b :: l).getLast? with
        | none => [a]
        | some lastP => a :: lastP :: (b :: l).dropLast)
      = a :: (b :: l).getLast (by simp) :: (b :: l).dropLast
  rw [List.getLast?_eq_getLast (b :: l) (by simp)]

theorem rrRotate_length : ∀ (p : List Player), (rrRotate p).length = p.length
  | [] => rfl
  | [a] => rfl
  | a :: b :: l => by
    rw [rrRotate_cons]
    simp

theorem rrRotate_getElem_zero : ∀ (p : List Player), (rrRotate p)[0]? = p[0]?
  | [] => rfl
  | [a] => rfl
  | a :: b :: l => by
    rw [rrRotate_cons]
    rfl

theorem rrRotate_getElem : ∀ (p : List Player), 2 ≤ p.length → ∀ (j : Nat),
    j < p.length - 1 →
    (rrRotate p)[1 + j]? = p[1 + ((j + (p.length - 1) - 1) % (p.length - 1))]?
  | [], hp, _, _ => by simp at hp
  | [a], hp, _, _ => by simp at hp
  | a :: b :: l, hp, j, hj => by
    rw [rrRotate_cons]
    set rest := b :: l with hrest
    have hm : (a :: rest).length - 1 = rest.length := by simp
    rw [hm] at hj ⊢
    have hrlen : 1 ≤ rest.length := by simp [hrest]
    rcases Nat.eq_zero_or_pos j with hj0 | hjpos
    · subst hj0
      have h1 : (0 + rest.length - 1) % rest.length = rest.length - 1 := by
        rw [Nat.zero_add, Nat.mod_eq_of_lt (by omega)]
      rw [h1]
      have hL : (a :: rest.getLast (by simp [hrest]) :: rest.dropLast)[1 + 0]?
          = some (rest.getLast (by simp [hrest])) := by simp
      rw [hL]
      have hget : rest[rest.length - 1]? = some (rest.getLast (by simp [hrest])) := by
        rw [← List.getLast?_eq_getElem?, List.getLast?_eq_getLast rest (by simp [hrest])]
      have hcs : (a :: rest)[1 + (rest.length - 1)]? = rest[rest.length - 1]? := by
        rw [show 1 + (rest.length - 1) = (rest.length - 1) + 1 from by omega]
        exact List.getElem?_cons_succ
      rw [hcs, hget]
    · have h1 : (j + rest.length - 1) % rest.length = j - 1 := by
        have h2 : j + rest.length - 1 = (j - 1) + rest.length := by omega
        rw [h2, Nat.add_mod_right, Nat.mod_eq_of_lt (by omega)]
      rw [h1]
      have hL : (a :: rest.getLast (by simp [hrest]) :: rest.dropLast)[1 + j]?
          = rest.dropLast[j - 1]? := by
        have h3 : 1 + j = (j - 1) + 1 + 1 := by omega
        rw [h3, List.getElem?_cons_succ, List.getElem?_cons_succ]
      rw [hL, List.getElem?_dropLast, if_pos (by omega)]
      have hR : (a :: rest)[1 + (j - 1)]? = rest[j - 1]? := by
        rw [show 1 + (j - 1) = (j - 1) + 1 from by omega]
        exact List.getElem?_cons_succ
      rw [hR]

/-- Original index of the player sitting at position `j` after `r`
rotations of a list of length `m + 1`. -/
def rotIdx (m r j : Nat) : Nat :=
  if j = 0 then 0 else 1 + ((j - 1 + (m - 1) * r) % m)

theorem rotIdx_lt (m r j : Nat) (hm : 1 ≤ m) (_hj : j < m + 1) :
    rotIdx m r j < m + 1 := by
  unfold rotIdx
  by_cases h0 : j = 0
  · rw [if_pos h0]
    omega
  · rw [if_neg h0]
    have := Nat.mod_lt (j - 1 + (m - 1) * r) (show 0 < m by omega)
    omega

theorem rotIter_getElem : ∀ (r : Nat) (q : List Player), 2 ≤ q.length →
    ∀ j, j < q.length → (rrRotate^[r] q)[j]? = q[rotIdx (q.length - 1) r j]?
  | 0, q, hq, j, _hj => by
    rw [Function.iterate_zero_apply]
    rcases Nat.eq_zero_or_pos j with hj0 | hjpos
    · subst hj0
      rfl
    · unfold rotIdx
      rw [if_neg (by omega)]
      have h1 : (j - 1 + (q.length - 1 - 1) * 0) % (q.length - 1) = j - 1 := by
        rw [Nat.mul_zero, Nat.add_zero, Nat.mod_eq_of_lt (by omega)]
      rw [h1]
      congr 1
      omega
  | r + 1, q, hq, j, hj => by
    rw [Function.iterate_succ_apply]
    have hlen : (rrRotate q).length = q.length := rrRotate_length q
    have ih := rotIter_getElem r (rrRotate q) (by omega) j (by omega)
    rw [hlen] at ih
    rw [ih]
    set m := q.length - 1 with hm
    have hm1 : 1 ≤ m := by omega
    rcases Nat.eq_zero_or_pos j with hj0 | hjpos
    · subst hj0
      have h0 : rotIdx m r 0 = 0 := by unfold rotIdx; rw [if_pos rfl]
      have h0s : rotIdx m (r + 1) 0 = 0 := by unfold rotIdx; rw [if_pos rfl]
      rw [h0, h0s]
      exact rrRotate_getElem_zero q
    · have hidx : rotIdx m r j = 1 + ((j - 1 + (m - 1) * r) % m) := by
        unfold rotIdx
        rw [if_neg (by omega)]
      have hidxs : rotIdx m (r + 1) j = 1 + ((j - 1 + (m - 1) * (r + 1)) % m) := by
        unfold rotIdx
        rw [if_neg (by omega)]
      rw [hidx, hidxs]
      have hjlt : (j - 1 + (m - 1) * r) % m < m := Nat.mod_lt _ (by omega)
      have hstep := rrRotate_getElem q hq ((j - 1 + (m - 1) * r) % m) (by omega)
      rw [hstep]
      congr 2
      rw [show (j - 1 + (m - 1) * r) % m + (q.length - 1) - 1
            = (j - 1 + (m - 1) * r) % m + (m - 1) from by omega]
      rw [Nat.mod_add_mod]
      congr 1
      have : (m - 1) * (r + 1) = (m - 1) * r + (m - 1) := by ring
      omega

-- C3: structure of the produced rounds -------------------------------

/-- The pair the inner loop considers at index `i`, kept only when both
ids are truthy. -/
def rrPairAt (p : List Player) (i : Nat) : Option (Player × Player) :=
  match p[i]?, p[p.length - 1 - i]? with
  | some a, some b => if truthyId a.pid && truthyId b.pid then some (a, b) else none
  | _, _ => none

theorem rrMatchesAux_players (sigma : Nat → String) (p : List Player) :
    ∀ (is : List Nat) (c : Nat),
    (rrMatchesAux sigma p is c).1.map (fun mt => mt.players)
      = is.filterMap (fun i => (rrPairAt p i).map (fun ab => [ab.1, ab.2]))
  | [], _ => rfl
  | i :: is, c => by
    rw [List.filterMap_cons]
    unfold rrMatchesAux rrPairAt
    cases ha : p[i]? with
    | none =>
      simp only [ha]
      exact rrMatchesAux_players sigma p is c
    | some a =>
      cases hb : p[p.length - 1 - i]? with
      | none =>
        simp only [ha, hb]
        exact rrMatchesAux_players sigma p is c
      | some b =>
        simp only [ha, hb]
        by_cases ht : truthyId a.pid && truthyId b.pid
        · rw [if_pos ht, if_pos ht]
          simp only [List.map_cons, Option.map_some']
          rw [rrMatchesAux_players sigma p is (uid sigma "m" c).2]
          rfl
        · rw [if_neg ht, if_neg ht]
          exact rrMatchesAux_players sigma p is c

theorem rrRound_players (sigma : Nat → String) (p : List Player) (c : Nat) :
    (rrRound sigma p c).1.map (fun mt => mt.players)
      = (List.range (p.length / 2)).filterMap
          (fun i => (rrPairAt p i).map (fun ab => [ab.1, ab.2])) :=
  rrMatchesAux_players sigma p (List.range (p.length / 2)) c

theorem rrRounds_players (sigma : Nat → String) :
    ∀ (cnt : Nat) (p : List Player) (c : Nat),
    (rrRounds sigma cnt p c).1.map (fun rnd => rnd.map (fun mt => mt.players))
      = (List.range cnt).map (fun r =>
          (List.range ((rrRotate^[r] p).length / 2)).filterMap
            (fun i => (rrPairAt (rrRotate^[r] p) i).map (fun ab => [ab.1, ab.2])))
  | 0, _, _ => rfl
  | cnt + 1, p, c => by
    have hhead := rrRound_players sigma p c
    have htail := rrRounds_players sigma cnt (rrRotate p) (rrRound sigma p c).2
    show (rrRound sigma p c).1.map (fun mt => mt.players)
        :: (rrRounds sigma cnt (rrRotate p) (rrRound sigma p c).2).1.map
             (fun rnd => rnd.map (fun mt => mt.players))
      = _
    rw [List.range_succ_eq_map, List.map_cons, hhead, htail, List.map_map]
    congr 1

theorem rotIter_length (q : List Player) :
    ∀ (r : Nat), (rrRotate^[r] q).length = q.length
  | 0 => rfl
  | r + 1 => by
    rw [Function.iterate_succ_apply', rrRotate_length, rotIter_length q r]

-- C3: modular arithmetic of the circle method ------------------------

theorem rotIdx_zero (m r : Nat) : rotIdx m r 0 = 0 := by
  unfold rotIdx
  rw [if_pos rfl]

theorem rotIdx_pos (m r j : Nat) (hj : 1 ≤ j) :
    rotIdx m r j = 1 + ((j - 1 + (m - 1) * r) % m) := by
  unfold rotIdx
  rw [if_neg (by omega)]

theorem rotIdx_pos_bounds (m r j : Nat) (hm : 1 ≤ m) (hj : 1 ≤ j) :
    1 ≤ rotIdx m r j ∧ rotIdx m r j ≤ m := by
  rw [rotIdx_pos m r j hj]
  have := Nat.mod_lt (j - 1 + (m - 1) * r) (show 0 < m by omega)
  omega

theorem rotIdx_eq_zero_iff (m r j : Nat) (hm : 1 ≤ m) :
    rotIdx m r j = 0 ↔ j = 0 := by
  constructor
  · intro h
    by_contra hj
    have := (rotIdx_pos_bounds m r j hm (by omega)).1
    omega
  · intro h
    subst h
    exact rotIdx_zero m r

theorem rotIdx_pos_eq_iff (m r j k : Nat) (hm : 1 ≤ m) (hj : 1 ≤ j)
    (hjm : j ≤ m) (hk : 1 ≤ k) (hkm : k ≤ m) :
    rotIdx m r j = k ↔ j = 1 + ((k - 1 + r) % m) := by
  have hmul : ∀ x : Nat, x + (m - 1) * r + r = x + m * r := by
    intro x
    cases m with
    | zero => omega
    | succ m2 =>
      simp only [Nat.add_sub_cancel]
      have hx2 : m2 * r + r = (m2 + 1) * r := by ring
      omega
  constructor
  · intro h
    rw [rotIdx_pos m r j hj] at h
    -- j - 1 ≡ k - 1 - r ... recover j from k: compute candidate and use mod arith
    have h2 : (j - 1 + (m - 1) * r) % m = k - 1 := by omega
    have h3 : ((k - 1 + r) % m + (m - 1) * r) % m = ((k - 1 + r) + (m - 1) * r) % m :=
      Nat.mod_add_mod _ _ _
    have h4 : (k - 1 + r + (m - 1) * r) % m = (k - 1 + m * r) % m := by
      have horder := hmul (k - 1)
      have h4b : k - 1 + r + (m - 1) * r = k - 1 + m * r := by omega
      rw [h4b]
    have h5 : (k - 1 + m * r) % m = (k - 1) % m := Nat.add_mul_mod_self_left _ _ _
    have h6 : (k - 1) % m = k - 1 := Nat.mod_eq_of_lt (by omega)
    -- both j - 1 and (k - 1 + r) % m are < m and have equal images under the
    -- injective map x => (x + (m-1) r) % m
    have hj1 : (j - 1) < m := by omega
    have hx : ((k - 1 + r) % m) < m := Nat.mod_lt _ (by omega)
    have himg : ((k - 1 + r) % m + (m - 1) * r) % m = (j - 1 + (m - 1) * r) % m := by
      rw [h3, h4, h5, h6, h2]
    -- injectivity: cancel the common addend modulo m
    have hmodeq : ((k - 1 + r) % m) % m = (j - 1) % m := by
      have := Nat.ModEq.add_right_cancel (Nat.ModEq.refl ((m - 1) * r)) himg
      exact this
    rw [Nat.mod_eq_of_lt hx, Nat.mod_eq_of_lt hj1] at hmodeq
    omega
  · intro h
    subst h
    rw [rotIdx_pos m r _ (by omega)]
    have h2 : 1 + ((k - 1 + r) % m) - 1 = (k - 1 + r) % m := by omega
    rw [h2, Nat.mod_add_mod]
    have h4b : k - 1 + r + (m - 1) * r = k - 1 + m * r := by
      have horder := hmul (k - 1)
      omega
    rw [h4b, Nat.add_mul_mod_self_left,
      Nat.mod_eq_of_lt (show k - 1 < m by omega)]
    omega

theorem unique_mod_solution (m a c d : Nat) (hm : 1 ≤ m) (hco : Nat.gcd a m = 1)
    (hd : d < m) : ∃! r, r < m ∧ (a * r + c) % m = d := by
  have hmpos : 0 < m := by omega
  let f : Fin m → Fin m := fun r => ⟨(a * r.val + c) % m, Nat.mod_lt _ hmpos⟩
  have hinj : Function.Injective f := by
    intro r1 r2 hf
    have h1 : (a * r1.val + c) % m = (a * r2.val + c) % m := congrArg Fin.val hf
    have h2 : a * r1.val + c ≡ a * r2.val + c [MOD m] := h1
    have h3 : a * r1.val ≡ a * r2.val [MOD m] := h2.add_right_cancel' c
    have h4 : r1.val ≡ r2.val [MOD m] :=
      Nat.ModEq.cancel_left_of_coprime (by rw [Nat.gcd_comm]; exact hco) h3
    have h5 : r1.val % m = r2.val % m := h4
    rw [Nat.mod_eq_of_lt r1.isLt, Nat.mod_eq_of_lt r2.isLt] at h5
    exact Fin.ext h5
  have hsurj : Function.Surjective f :=
    (Finite.injective_iff_surjective).mp hinj
  obtain ⟨r0, hr0⟩ := hsurj ⟨d, hd⟩
  refine ⟨r0.val, ⟨r0.isLt, congrArg Fin.val hr0⟩, ?_⟩
  intro r1 hr1c
  obtain ⟨hr1, hr1eq⟩ := hr1c
  have hval : (a * r0.val + c) % m = d := congrArg Fin.val hr0
  have hff : f ⟨r1, hr1⟩ = f r0 := by
    refine Fin.ext ?_
    show (a * r1 + c) % m = (a * r0.val + c) % m
    rw [hr1eq, hval]
  exact congrArg Fin.val (hinj hff)

theorem countP_singleton_index (p : Nat → Bool) (i0 : Nat) :
    ∀ (l : List Nat), (∀ i ∈ l, p i = true ↔ i = i0) → l.Nodup → i0 ∈ l →
    l.countP p = 1
  | [], _, _, hmem => by cases hmem
  | a :: l, hiff, hnd, hmem => by
    rw [List.nodup_cons] at hnd
    rw [List.countP_cons]
    by_cases ha : a = i0
    · subst ha
      have hl0 : l.countP p = 0 := by
        rw [List.countP_eq_zero]
        intro i hi
        have hcon : p i = true → False := fun hpi =>
          hnd.1 (((hiff i (List.mem_cons_of_mem a hi)).mp hpi) ▸ hi)
        simpa using hcon
      have hpa : p a = true := (hiff a (List.mem_cons_self a l)).mpr rfl
      rw [hl0, hpa]
      simp
    · have hpa : p a = false := by
        rw [← Bool.not_eq_true]
        intro hpa
        exact ha ((hiff a (List.mem_cons_self a l)).mp hpa)
      have hmem2 : i0 ∈ l := by
        rcases List.mem_cons.mp hmem with h | h
        · exact absurd h.symm ha
        · exact h
      rw [hpa, countP_singleton_index p i0 l
        (fun i hi => hiff i (List.mem_cons_of_mem a hi)) hnd.2 hmem2]
      simp

theorem sum_indicator_one (f : Nat → Nat) (r0 : Nat) :
    ∀ (l : List Nat), (∀ r ∈ l, f r = if r = r0 then 1 else 0) → l.Nodup →
    r0 ∈ l → (l.map f).sum = 1
  | [], _, _, hmem => by cases hmem
  | a :: l, hind, hnd, hmem => by
    rw [List.nodup_cons] at hnd
    rw [List.map_cons, List.sum_cons]
    by_cases ha : a = r0
    · subst ha
      rw [hind a (List.mem_cons_self a l), if_pos rfl]
      have hl0 : (l.map f).sum = 0 := by
        rw [List.sum_eq_zero]
        intro x hx
        obtain ⟨r, hr, hrx⟩ := List.mem_map.mp hx
        rw [hind r (List.mem_cons_of_mem a hr)] at hrx
        rw [← hrx]
        rw [if_neg (by intro hc; exact hnd.1 (hc ▸ hr))]
      rw [hl0]
    · rw [hind a (List.mem_cons_self a l), if_neg ha]
      have hmem2 : r0 ∈ l := by
        rcases List.mem_cons.mp hmem with h | h
        · exact absurd h.symm ha
        · exact h
      rw [sum_indicator_one f r0 l
        (fun r hr => hind r (List.mem_cons_of_mem a hr)) hnd.2 hmem2]

-- C3: pair-hit counting ----------------------------------------------

/-- Whether round `r`, slot `i` of the circle method pairs the original
indices `ku` and `kv` (in either order). -/
def hitB (m r i ku kv : Nat) : Bool :=
  decide ((rotIdx m r i = ku ∧ rotIdx m r (m - i) = kv) ∨
          (rotIdx m r i = kv ∧ rotIdx m r (m - i) = ku))

theorem hitB_comm (m r i ku kv : Nat) : hitB m r i ku kv = hitB m r i kv ku := by
  unfold hitB
  exact decide_eq_decide.mpr or_comm

theorem rr_hit_count_anchor (m kv : Nat) (hm : 1 ≤ m) (hkv : 1 ≤ kv)
    (hkvm : kv ≤ m) :
    ((List.range m).map (fun r =>
      (List.range ((m + 1) / 2)).countP (fun i => hitB m r i 0 kv))).sum = 1 := by
  obtain ⟨r0, hr0, huniq⟩ :=
    unique_mod_solution m 1 (kv - 1) (m - 1) hm (Nat.gcd_one_left m) (by omega)
  have hiffi : ∀ r, r < m → ∀ i ∈ List.range ((m + 1) / 2),
      (hitB m r i 0 kv = true ↔ (i = 0 ∧ (kv - 1 + r) % m = m - 1)) := by
    intro r hr i hi
    rw [List.mem_range] at hi
    unfold hitB
    rw [decide_eq_true_eq]
    constructor
    · rintro (⟨h1, h2⟩ | ⟨h1, h2⟩)
      · have hi0 : i = 0 := (rotIdx_eq_zero_iff m r i hm).mp h1
        subst hi0
        rw [Nat.sub_zero] at h2
        have := (rotIdx_pos_eq_iff m r m kv hm (by omega) (le_refl m) hkv hkvm).mp h2
        constructor
        · rfl
        · omega
      · exfalso
        have hmi : 1 ≤ m - i := by omega
        have := (rotIdx_pos_bounds m r (m - i) hm hmi).1
        omega
    · rintro ⟨hi0, hcond⟩
      subst hi0
      left
      refine ⟨rotIdx_zero m r, ?_⟩
      rw [Nat.sub_zero]
      exact (rotIdx_pos_eq_iff m r m kv hm (by omega) (le_refl m) hkv hkvm).mpr
        (by omega)
  have hcount : ∀ r ∈ List.range m,
      (List.range ((m + 1) / 2)).countP (fun i => hitB m r i 0 kv)
        = if r = r0 then 1 else 0 := by
    intro r hr
    rw [List.mem_range] at hr
    by_cases hcond : (kv - 1 + r) % m = m - 1
    · have hreq : r = r0 := by
        refine huniq r ⟨hr, ?_⟩
        rw [Nat.one_mul]
        rw [Nat.add_comm r (kv - 1)]
        exact hcond
      rw [if_pos hreq]
      refine countP_singleton_index _ 0 _ ?_ (List.nodup_range _) ?_
      · intro i hi
        rw [hiffi r hr i hi]
        constructor
        · intro h
          exact h.1
        · intro h
          exact ⟨h, hcond⟩
      · rw [List.mem_range]
        omega
    · have hrne : r ≠ r0 := by
        intro hc
        subst hc
        obtain ⟨-, hr0eq⟩ := hr0
        rw [Nat.one_mul, Nat.add_comm r (kv - 1)] at hr0eq
        exact hcond hr0eq
      rw [if_neg hrne, List.countP_eq_zero]
      intro i hi
      have hcon : hitB m r i 0 kv = true → False := by
        intro hh
        exact hcond ((hiffi r hr i hi).mp hh).2
      simpa using hcon
  rw [List.map_congr_left hcount]
  refine sum_indicator_one _ r0 _ (fun r hr => rfl) (List.nodup_range _) ?_
  rw [List.mem_range]
  exact hr0.1

theorem rr_hit_count_pos (m ku kv : Nat) (hm : 1 ≤ m) (hodd : m % 2 = 1)
    (hku : 1 ≤ ku) (hkum : ku ≤ m) (hkv : 1 ≤ kv) (hkvm : kv ≤ m)
    (hne : ku ≠ kv) :
    ((List.range m).map (fun r =>
      (List.range ((m + 1) / 2)).countP (fun i => hitB m r i ku kv))).sum = 1 := by
  have hm3 : 3 ≤ m := by
    rcases Nat.lt_or_ge m 3 with h | h
    · interval_cases m
      · omega
      · omega
    · exact h
  have hco : Nat.gcd 2 m = 1 := by
    rw [Nat.gcd_rec 2 m, hodd]
    rfl
  obtain ⟨r0, hr0, huniq⟩ :=
    unique_mod_solution m 2 (ku + kv - 2) (m - 2) hm hco (by omega)
  -- per-round positions of the two players
  have hsune : ∀ r, (ku - 1 + r) % m ≠ (kv - 1 + r) % m := by
    intro r hc
    have h1 : ku - 1 + r ≡ kv - 1 + r [MOD m] := hc
    have h2 : ku - 1 ≡ kv - 1 [MOD m] := h1.add_right_cancel' r
    have h3 : (ku - 1) % m = (kv - 1) % m := h2
    rw [Nat.mod_eq_of_lt (by omega), Nat.mod_eq_of_lt (by omega)] at h3
    omega
  have hsum_iff : ∀ r, ((ku - 1 + r) % m + (kv - 1 + r) % m = m - 2)
      ↔ (2 * r + (ku + kv - 2)) % m = m - 2 := by
    intro r
    have hmod : ((ku - 1 + r) % m + (kv - 1 + r) % m) % m
        = (2 * r + (ku + kv - 2)) % m := by
      rw [← Nat.add_mod]
      congr 1
      omega
    constructor
    · intro h
      rw [← hmod, h, Nat.mod_eq_of_lt (by omega)]
    · intro h
      have hlt1 : (ku - 1 + r) % m < m := Nat.mod_lt _ (by omega)
      have hlt2 : (kv - 1 + r) % m < m := Nat.mod_lt _ (by omega)
      have hmm : ((ku - 1 + r) % m + (kv - 1 + r) % m) % m = m - 2 := by
        rw [hmod, h]
      rcases Nat.lt_or_ge ((ku - 1 + r) % m + (kv - 1 + r) % m) m with hlt | hge
      · rw [Nat.mod_eq_of_lt hlt] at hmm
        exact hmm
      · exfalso
        have heq : (ku - 1 + r) % m + (kv - 1 + r) % m = m + (m - 2) := by
          have hsub : ((ku - 1 + r) % m + (kv - 1 + r) % m) - m < m := by omega
          have := Nat.mod_eq_sub_mod hge
          rw [this, Nat.mod_eq_of_lt hsub] at hmm
          omega
        have h1 : (ku - 1 + r) % m = m - 1 := by omega
        have h2 : (kv - 1 + r) % m = m - 1 := by omega
        exact hsune r (h1.trans h2.symm)
  have hiffi : ∀ r, r < m → ∀ i ∈ List.range ((m + 1) / 2),
      (hitB m r i ku kv = true ↔
        ((ku - 1 + r) % m + (kv - 1 + r) % m = m - 2 ∧
         i = min (1 + (ku - 1 + r) % m) (1 + (kv - 1 + r) % m))) := by
    intro r hr i hi
    rw [List.mem_range] at hi
    have hn2 : (m + 1) / 2 ≤ m := by omega
    have hsu : (ku - 1 + r) % m < m := Nat.mod_lt _ (by omega)
    have hsv : (kv - 1 + r) % m < m := Nat.mod_lt _ (by omega)
    unfold hitB
    rw [decide_eq_true_eq]
    constructor
    · rintro (⟨h1, h2⟩ | ⟨h1, h2⟩)
      · have hi1 : 1 ≤ i := by
          by_contra hc
          have hi0 : i = 0 := by omega
          subst hi0
          rw [rotIdx_zero] at h1
          omega
        have hiPu : i = 1 + (ku - 1 + r) % m :=
          (rotIdx_pos_eq_iff m r i ku hm hi1 (by omega) hku hkum).mp h1
        have hmi1 : 1 ≤ m - i := by omega
        have hiPv : m - i = 1 + (kv - 1 + r) % m :=
          (rotIdx_pos_eq_iff m r (m - i) kv hm hmi1 (by omega) hkv hkvm).mp h2
        have hsum : (ku - 1 + r) % m + (kv - 1 + r) % m = m - 2 := by omega
        refine ⟨hsum, ?_⟩
        have : (ku - 1 + r) % m < (kv - 1 + r) % m := by
          have := hsune r
          omega
        omega
      · have hi1 : 1 ≤ i := by
          by_contra hc
          have hi0 : i = 0 := by omega
          subst hi0
          rw [rotIdx_zero] at h1
          omega
        have hiPv : i = 1 + (kv - 1 + r) % m :=
          (rotIdx_pos_eq_iff m r i kv hm hi1 (by omega) hkv hkvm).mp h1
        have hmi1 : 1 ≤ m - i := by omega
        have hiPu : m - i = 1 + (ku - 1 + r) % m :=
          (rotIdx_pos_eq_iff m r (m - i) ku hm hmi1 (by omega) hku hkum).mp h2
        have hsum : (ku - 1 + r) % m + (kv - 1 + r) % m = m - 2 := by omega
        refine ⟨hsum, ?_⟩
        have : (kv - 1 + r) % m < (ku - 1 + r) % m := by
          have := hsune r
          omega
        omega
    · rintro ⟨hsum, hmin⟩
      have hsne := hsune r
      rcases Nat.lt_or_ge ((ku - 1 + r) % m) ((kv - 1 + r) % m) with hlt | hge
      · left
        have hieq : i = 1 + (ku - 1 + r) % m := by omega
        constructor
        · exact (rotIdx_pos_eq_iff m r i ku hm (by omega) (by omega) hku hkum).mpr hieq
        · refine (rotIdx_pos_eq_iff m r (m - i) kv hm (by omega) (by omega) hkv hkvm).mpr ?_
          omega
      · right
        have hlt2 : (kv - 1 + r) % m < (ku - 1 + r) % m := by omega
        have hieq : i = 1 + (kv - 1 + r) % m := by omega
        constructor
        · exact (rotIdx_pos_eq_iff m r i kv hm (by omega) (by omega) hkv hkvm).mpr hieq
        · refine (rotIdx_pos_eq_iff m r (m - i) ku hm (by omega) (by omega) hku hkum).mpr ?_
          omega
  have hcount : ∀ r ∈ List.range m,
      (List.range ((m + 1) / 2)).countP (fun i => hitB m r i ku kv)
        = if r = r0 then 1 else 0 := by
    intro r hr
    rw [List.mem_range] at hr
    have hsu : (ku - 1 + r) % m < m := Nat.mod_lt _ (by omega)
    have hsv : (kv - 1 + r) % m < m := Nat.mod_lt _ (by omega)
    by_cases hcond : (ku - 1 + r) % m + (kv - 1 + r) % m = m - 2
    · have hreq : r = r0 := by
        refine huniq r ⟨hr, ?_⟩
        exact (hsum_iff r).mp hcond
      rw [if_pos hreq]
      refine countP_singleton_index _
        (min (1 + (ku - 1 + r) % m) (1 + (kv - 1 + r) % m)) _ ?_
        (List.nodup_range _) ?_
      · intro i hi
        rw [hiffi r hr i hi]
        constructor
        · intro h
          exact h.2
        · intro h
          exact ⟨hcond, h⟩
      · rw [List.mem_range]
        have := hsune r
        omega
    · have hrne : r ≠ r0 := by
        intro hc
        subst hc
        obtain ⟨-, hr0eq⟩ := hr0
        exact hcond ((hsum_iff r).mpr hr0eq)
      rw [if_neg hrne, List.countP_eq_zero]
      intro i hi
      have hcon : hitB m r i ku kv = true → False := by
        intro hh
        exact hcond ((hiffi r hr i hi).mp hh).1
      simpa using hcon
  rw [List.map_congr_left hcount]
  refine sum_indicator_one _ r0 _ (fun r hr => rfl) (List.nodup_range _) ?_
  rw [List.mem_range]
  exact hr0.1

theorem rr_hit_count (m ku kv : Nat) (hm : 1 ≤ m) (hodd : m % 2 = 1)
    (hku : ku < m + 1) (hkv : kv < m + 1) (hne : ku ≠ kv) :
    ((List.range m).map (fun r =>
      (List.range ((m + 1) / 2)).countP (fun i => hitB m r i ku kv))).sum = 1 := by
  rcases Nat.eq_zero_or_pos ku with hku0 | hkup
  · subst hku0
    exact rr_hit_count_anchor m kv hm (by omega) (by omega)
  · rcases Nat.eq_zero_or_pos kv with hkv0 | hkvp
    · subst hkv0
      have hswap : ∀ r, (List.range ((m + 1) / 2)).countP (fun i => hitB m r i ku 0)
          = (List.range ((m + 1) / 2)).countP (fun i => hitB m r i 0 ku) := by
        intro r
        refine List.countP_congr ?_
        intro i hi
        rw [hitB_comm]
      rw [List.map_congr_left (fun r hr => hswap r)]
      exact rr_hit_count_anchor m ku hm (by omega) (by omega)
    · exact rr_hit_count_pos m ku kv hm hodd (by omega) (by omega) (by omega)
        (by omega) hne

theorem countP_filterMap_opt (g : Nat → Option (List Player))
    (P : List Player → Bool) :
    ∀ l : List Nat, (l.filterMap g).countP P
      = l.countP (fun a => ((g a).map P).getD false)
  | [] => rfl
  | a :: l => by
    rw [List.filterMap_cons]
    cases hg : g a with
    | none =>
      rw [List.countP_cons]
      simp only [hg, Option.map_none', Option.getD_none, Bool.cond_decide]
      rw [countP_filterMap_opt g P l]
      simp
    | some x =>
      rw [List.countP_cons, List.countP_cons]
      simp only [hg, Option.map_some', Option.getD_some]
      rw [countP_filterMap_opt g P l]

theorem pid_index_unique (q : List Player)
    (hnd : (q.map Player.pid).Nodup) {x y : Nat} {a b : Player}
    (hx : q[x]? = some a) (hy : q[y]? = some b)
    (hab : a.pid = b.pid) : x = y := by
  obtain ⟨hxl, hxe⟩ := List.getElem?_eq_some.mp hx
  obtain ⟨hyl, hye⟩ := List.getElem?_eq_some.mp hy
  have hxm : x < (q.map Player.pid).length := by
    rw [List.length_map]; exact hxl
  have hym : y < (q.map Player.pid).length := by
    rw [List.length_map]; exact hyl
  have hkey : (q.map Player.pid).get ⟨x, hxm⟩ = (q.map Player.pid).get ⟨y, hym⟩ := by
    simp only [List.get_eq_getElem, List.getElem_map, hxe, hye]
    exact hab
  exact congrArg Fin.val (List.nodup_iff_injective_get.mp hnd hkey)

theorem rrRotate_perm : ∀ (p : List Player), (rrRotate p).Perm p
  | [] => List.Perm.refl _
  | [a] => List.Perm.refl _
  | a :: b :: l => by
    rw [rrRotate_cons]
    refine List.Perm.cons a ?_
    have hsplit : (b :: l).dropLast ++ [(b :: l).getLast (by simp)] = b :: l :=
      List.dropLast_concat_getLast (by simp)
    have h1 : ((b :: l).getLast (by simp) :: (b :: l).dropLast).Perm
        ((b :: l).dropLast ++ [(b :: l).getLast (by simp)]) :=
      (List.perm_append_singleton _ _).symm
    rw [hsplit] at h1
    exact h1

theorem rotIter_perm (q : List Player) :
    ∀ (r : Nat), (rrRotate^[r] q).Perm q
  | 0 => List.Perm.refl _
  | r + 1 => by
    rw [Function.iterate_succ_apply']
    exact (rrRotate_perm _).trans (rotIter_perm q r)

theorem rotIter_pid_nodup (q : List Player)
    (hnd : (q.map Player.pid).Nodup) (r : Nat) :
    ((rrRotate^[r] q).map Player.pid).Nodup :=
  ((rotIter_perm q r).map Player.pid).nodup_iff.mpr hnd

theorem rrPad_length_even (players : List Player) :
    (rrPad players).length % 2 = 0 := by
  unfold rrPad
  by_cases h : players.length % 2 = 1
  · rw [if_pos h, List.length_append, List.length_singleton]
    omega
  · rw [if_neg h]
    omega

theorem rrPad_mem (players : List Player) (u : Player) (hu : u ∈ players) :
    u ∈ rrPad players := by
  unfold rrPad
  by_cases h : players.length % 2 = 1
  · rw [if_pos h]
    exact List.mem_append_left _ hu
  · rw [if_neg h]
    exact hu

theorem rrPad_pid_nodup (players : List Player)
    (hnd : (players.map Player.pid).Nodup)
    (hnn : ∀ p ∈ players, p.pid ≠ none) :
    ((rrPad players).map Player.pid).Nodup := by
  unfold rrPad
  by_cases h : players.length % 2 = 1
  · rw [if_pos h, List.map_append]
    rw [List.nodup_append]
    refine ⟨hnd, List.nodup_singleton _, ?_⟩
    intro x hx hxb
    simp only [List.map_cons, List.map_nil, List.mem_singleton] at hxb
    obtain ⟨p, hp, hpe⟩ := List.mem_map.mp hx
    subst hxb
    exact hnn p hp (hpe.trans rfl)
  · rw [if_neg h]
    exact hnd

theorem rr_hit_eq (q : List Player) (hnd : (q.map Player.pid).Nodup)
    (h2 : 2 ≤ q.length) (u v : Player) (ku kv : Nat)
    (hku : q[ku]? = some u) (hkv : q[kv]? = some v)
    (hTu : truthyId u.pid = true) (hTv : truthyId v.pid = true)
    (r i : Nat) (hi : i < q.length / 2) :
    (((rrPairAt (rrRotate^[r] q) i).map
        (fun ab : Player × Player => [ab.1, ab.2])).map
        (fun l => decide (l = [u, v] ∨ l = [v, u]))).getD false
      = hitB (q.length - 1) r i ku kv := by
  set m := q.length - 1 with hmdef
  have hm1 : 1 ≤ m := by omega
  have hil : i < q.length := by omega
  have hmil : m - i < q.length := by omega
  have hrlen : (rrRotate^[r] q).length = q.length := rotIter_length q r
  have ha : (rrRotate^[r] q)[i]? = q[rotIdx m r i]? := rotIter_getElem r q h2 i hil
  have hb : (rrRotate^[r] q)[(rrRotate^[r] q).length - 1 - i]?
      = q[rotIdx m r (m - i)]? := by
    rw [hrlen, show q.length - 1 - i = m - i from by omega]
    exact rotIter_getElem r q h2 (m - i) hmil
  have hia : rotIdx m r i < q.length := by
    have := rotIdx_lt m r i hm1 (by omega)
    omega
  have hib : rotIdx m r (m - i) < q.length := by
    have := rotIdx_lt m r (m - i) hm1 (by omega)
    omega
  have hga : q[rotIdx m r i]? = some (q.get ⟨rotIdx m r i, hia⟩) := by
    rw [List.getElem?_eq_getElem hia]
    rfl
  have hgb : q[rotIdx m r (m - i)]? = some (q.get ⟨rotIdx m r (m - i), hib⟩) := by
    rw [List.getElem?_eq_getElem hib]
    rfl
  set a := q.get ⟨rotIdx m r i, hia⟩ with hadef
  set b := q.get ⟨rotIdx m r (m - i), hib⟩ with hbdef
  have hpa : rrPairAt (rrRotate^[r] q) i
      = if truthyId a.pid && truthyId b.pid then some (a, b) else none := by
    unfold rrPairAt
    rw [ha, hb, hga, hgb]
  rw [hpa]
  have hqa : q[rotIdx m r i]? = some a := hga
  have hqb : q[rotIdx m r (m - i)]? = some b := hgb
  by_cases hcase : (rotIdx m r i = ku ∧ rotIdx m r (m - i) = kv)
      ∨ (rotIdx m r i = kv ∧ rotIdx m r (m - i) = ku)
  · have hhit : hitB m r i ku kv = true := by
      unfold hitB
      rw [decide_eq_true_eq]
      exact hcase
    rw [hhit]
    rcases hcase with ⟨h1, h2c⟩ | ⟨h1, h2c⟩
    · have hau : a = u := by
        rw [h1, hku] at hqa
        exact (Option.some_inj.mp hqa).symm
      have hbv : b = v := by
        rw [h2c, hkv] at hqb
        exact (Option.some_inj.mp hqb).symm
      rw [hau, hbv, if_pos (by rw [hTu, hTv]; rfl)]
      simp
    · have hav : a = v := by
        rw [h1, hkv] at hqa
        exact (Option.some_inj.mp hqa).symm
      have hbu : b = u := by
        rw [h2c, hku] at hqb
        exact (Option.some_inj.mp hqb).symm
      rw [hav, hbu, if_pos (by rw [hTu, hTv]; rfl)]
      simp
  · have hhit : hitB m r i ku kv = false := by
      unfold hitB
      rw [decide_eq_false_iff_not]
      exact hcase
    rw [hhit]
    by_cases ht : truthyId a.pid && truthyId b.pid
    · rw [if_pos ht]
      simp only [Option.map_some', Option.getD_some, decide_eq_false_iff_not]
      rintro (habe | habe)
      · obtain ⟨hau, hbv⟩ : a = u ∧ b = v := by simpa using habe
        exact hcase (Or.inl
          ⟨pid_index_unique q hnd hqa hku (congrArg Player.pid hau),
           pid_index_unique q hnd hqb hkv (congrArg Player.pid hbv)⟩)
      · obtain ⟨hav, hbu⟩ : a = v ∧ b = u := by simpa using habe
        exact hcase (Or.inr
          ⟨pid_index_unique q hnd hqa hkv (congrArg Player.pid hav),
           pid_index_unique q hnd hqb hku (congrArg Player.pid hbu)⟩)
    · rw [if_neg ht]
      rfl

theorem rrPairAt_eq_some (p : List Player) (i : Nat) (ab : Player × Player)
    (h : rrPairAt p i = some ab) :
    p[i]? = some ab.1 ∧ p[p.length - 1 - i]? = some ab.2 := by
  unfold rrPairAt at h
  cases ha : p[i]? with
  | none =>
    rw [ha] at h
    exact Option.noConfusion h
  | some a =>
    cases hb : p[p.length - 1 - i]? with
    | none =>
      rw [ha, hb] at h
      exact Option.noConfusion h
    | some b =>
      rw [ha, hb] at h
      have h2 : (if truthyId a.pid && truthyId b.pid then some (a, b) else none)
          = some ab := h
      by_cases ht : truthyId a.pid && truthyId b.pid
      · rw [if_pos ht] at h2
        have h3 : (a, b) = ab := Option.some_inj.mp h2
        subst h3
        exact ⟨rfl, rfl⟩
      · rw [if_neg ht] at h2
        exact Option.noConfusion h2

theorem rr_total_count (sigma : Nat → String) (players : List Player) (c : Nat)
    (hnd : (players.map Player.pid).Nodup)
    (hT : ∀ p ∈ players, truthyId p.pid = true)
    (u v : Player) (hu : u ∈ players) (hv : v ∈ players)
    (huv : u.pid ≠ v.pid) :
    ((generateRoundRobin sigma players c).1.flatten).countP
      (fun mt => decide (mt.players = [u, v] ∨ mt.players = [v, u])) = 1 := by
  have hnn : ∀ p ∈ players, p.pid ≠ none := by
    intro p hp hc
    have := hT p hp
    rw [hc] at this
    exact absurd this (by decide)
  set q := rrPad players with hqdef
  have hqnd : (q.map Player.pid).Nodup := rrPad_pid_nodup players hnd hnn
  have hev : q.length % 2 = 0 := rrPad_length_even players
  have huq : u ∈ q := rrPad_mem players u hu
  have hvq : v ∈ q := rrPad_mem players v hv
  have hune : u ≠ v := fun hc => huv (congrArg Player.pid hc)
  have h2 : 2 ≤ q.length := by
    by_contra hc
    have h1 : 0 < q.length := List.length_pos.mpr (List.ne_nil_of_mem huq)
    have hle : q.length = 1 := by omega
    obtain ⟨x, hx⟩ := List.length_eq_one.mp hle
    rw [hx, List.mem_singleton] at huq hvq
    exact hune (huq.trans hvq.symm)
  set m := q.length - 1 with hmdef
  have hm1 : 1 ≤ m := by omega
  have hq : q.length = m + 1 := by omega
  have hodd : m % 2 = 1 := by omega
  obtain ⟨ku, hku⟩ := List.mem_iff_getElem?.mp huq
  obtain ⟨kv, hkv⟩ := List.mem_iff_getElem?.mp hvq
  have hkul : ku < q.length := (List.getElem?_eq_some.mp hku).1
  have hkvl : kv < q.length := (List.getElem?_eq_some.mp hkv).1
  have hkne : ku ≠ kv := by
    intro hc
    rw [hc, hkv] at hku
    exact hune (Option.some_inj.mp hku).symm
  have hTu : truthyId u.pid = true := hT u hu
  have hTv : truthyId v.pid = true := hT v hv
  have hgen : (generateRoundRobin sigma players c).1 = (rrRounds sigma m q c).1 := rfl
  rw [hgen, List.countP_flatten]
  have hlist : (rrRounds sigma m q c).1.map
        (List.countP (fun mt => decide (mt.players = [u, v] ∨ mt.players = [v, u])))
      = (List.range m).map (fun r =>
          (List.range ((m + 1) / 2)).countP (fun i => hitB m r i ku kv)) := by
    have hstep1 : (rrRounds sigma m q c).1.map
          (List.countP (fun mt => decide (mt.players = [u, v] ∨ mt.players = [v, u])))
        = ((rrRounds sigma m q c).1.map (fun rnd => rnd.map (fun mt => mt.players))).map
            (List.countP (fun l => decide (l = [u, v] ∨ l = [v, u]))) := by
      rw [List.map_map]
      refine List.map_congr_left ?_
      intro rnd hr
      show rnd.countP (fun mt => decide (mt.players = [u, v] ∨ mt.players = [v, u]))
        = (rnd.map (fun mt => mt.players)).countP
            (fun l => decide (l = [u, v] ∨ l = [v, u]))
      rw [List.countP_map]
      rfl
    rw [hstep1, rrRounds_players sigma m q c, List.map_map]
    refine List.map_congr_left ?_
    intro r hr
    rw [List.mem_range] at hr
    show ((List.range ((rrRotate^[r] q).length / 2)).filterMap
            (fun i => (rrPairAt (rrRotate^[r] q) i).map (fun ab => [ab.1, ab.2]))).countP
          (fun l => decide (l = [u, v] ∨ l = [v, u]))
      = (List.range ((m + 1) / 2)).countP (fun i => hitB m r i ku kv)
    rw [rotIter_length q r, hq, countP_filterMap_opt]
    refine List.countP_congr ?_
    intro i hi
    rw [List.mem_range] at hi
    have hres := rr_hit_eq q hqnd h2 u v ku kv hku hkv hTu hTv r i
      (by rw [hq]; exact hi)
    rw [← hmdef] at hres
    rw [hres]
  rw [hlist]
  exact rr_hit_count m ku kv hm1 hodd (by omega) (by omega) hkne

theorem rr_round_pairwise (sigma : Nat → String) (p : List Player) (c : Nat)
    (hnd : (p.map Player.pid).Nodup) :
    (rrRound sigma p c).1.Pairwise
      (fun m1 m2 => ∀ x ∈ m1.players, ∀ y ∈ m2.players, x.pid ≠ y.pid) := by
  have hS : ((rrRound sigma p c).1.map (fun mt => mt.players)).Pairwise
      (fun l1 l2 => ∀ x ∈ l1, ∀ y ∈ l2, x.pid ≠ y.pid) := by
    rw [rrRound_players sigma p c, List.pairwise_filterMap]
    refine List.Pairwise.imp_of_mem ?_ (List.pairwise_lt_range _)
    intro i j hi hj hij
    rw [List.mem_range] at hi hj
    intro l1 hl1 l2 hl2
    obtain ⟨ab1, hab1, hx1⟩ := Option.map_eq_some'.mp (Option.mem_def.mp hl1)
    obtain ⟨ab2, hab2, hy1⟩ := Option.map_eq_some'.mp (Option.mem_def.mp hl2)
    obtain ⟨ha1, hb1⟩ := rrPairAt_eq_some p i ab1 hab1
    obtain ⟨ha2, hb2⟩ := rrPairAt_eq_some p j ab2 hab2
    subst hx1 hy1
    intro px hpx py hpy hpe
    have hn2 : 2 ≤ p.length := by omega
    rw [List.mem_cons, List.mem_singleton] at hpx hpy
    rcases hpx with rfl | rfl <;> rcases hpy with rfl | rfl
    · have := pid_index_unique p hnd ha1 ha2 hpe
      omega
    · have := pid_index_unique p hnd ha1 hb2 hpe
      omega
    · have := pid_index_unique p hnd hb1 ha2 hpe
      omega
    · have := pid_index_unique p hnd hb1 hb2 hpe
      omega
  have := List.pairwise_map.mp hS
  exact this

theorem rrRounds_pairwise (sigma : Nat → String) :
    ∀ (cnt : Nat) (p : List Player) (c : Nat),
    (p.map Player.pid).Nodup →
    ∀ rnd ∈ (rrRounds sigma cnt p c).1,
      rnd.Pairwise (fun m1 m2 => ∀ x ∈ m1.players, ∀ y ∈ m2.players, x.pid ≠ y.pid)
  | 0, p, c, hnd, rnd, hmem => by cases hmem
  | cnt + 1, p, c, hnd, rnd, hmem => by
    have hmem2 : rnd ∈ (rrRound sigma p c).1
        :: (rrRounds sigma cnt (rrRotate p) (rrRound sigma p c).2).1 := hmem
    rcases List.mem_cons.mp hmem2 with h | h
    · subst h
      exact rr_round_pairwise sigma p c hnd
    · exact rrRounds_pairwise sigma cnt (rrRotate p) (rrRound sigma p c).2
        (((rrRotate_perm p).map Player.pid).nodup_iff.mpr hnd) rnd h

theorem generateRoundRobin_pairwise (sigma : Nat → String)
    (players : List Player) (c : Nat)
    (hnd : (players.map Player.pid).Nodup)
    (hnn : ∀ p ∈ players, p.pid ≠ none) :
    ∀ rnd ∈ (generateRoundRobin sigma players c).1,
      rnd.Pairwise (fun m1 m2 => ∀ x ∈ m1.players, ∀ y ∈ m2.players, x.pid ≠ y.pid) :=
  rrRounds_pairwise sigma ((rrPad players).length - 1) (rrPad players) c
    (rrPad_pid_nodup players hnd hnn)

/-- A player whose id is the empty string: distinct from every other id
and non-null, yet falsy under the JS truthiness test `if (a.id && b.id)`. -/
def pEmpty : Player := { pid := some "", name := "E" }

/-- Claim C3 (amended): for players with distinct ids that are non-null
AND non-empty (JS-truthy), every unordered pair of players appears in
exactly one match across all rounds of the round-robin generator, and
within any single round no player id occurs in two matches. -/
theorem generateRoundRobin_complete (sigma : Nat → String)
    (players : List Player) (c : Nat)
    (hnd : (players.map Player.pid).Nodup)
    (hT : ∀ p ∈ players, truthyId p.pid = true)
    (u v : Player) (hu : u ∈ players) (hv : v ∈ players)
    (huv : u.pid ≠ v.pid) :
    ((generateRoundRobin sigma players c).1.flatten).countP
        (fun mt => decide (mt.players = [u, v] ∨ mt.players = [v, u])) = 1
    ∧ ∀ rnd ∈ (generateRoundRobin sigma players c).1,
        rnd.Pairwise (fun m1 m2 => ∀ x ∈ m1.players, ∀ y ∈ m2.players,
          x.pid ≠ y.pid) := by
  refine ⟨rr_total_count sigma players c hnd hT u v hu hv huv, ?_⟩
  refine generateRoundRobin_pairwise sigma players c hnd ?_
  intro p hp hc
  have := hT p hp
  rw [hc] at this
  exact absurd this (by decide)

/-- Witness for C3: three players a, b, c; the pair (a, b) meets exactly
once over the three generated rounds. -/
theorem generateRoundRobin_complete_witness :
    (([pA, pB, pC].map Player.pid).Nodup ∧
     (∀ p ∈ [pA, pB, pC], truthyId p.pid = true) ∧
     pA ∈ [pA, pB, pC] ∧ pB ∈ [pA, pB, pC] ∧ pA.pid ≠ pB.pid) ∧
    (((generateRoundRobin sig0 [pA, pB, pC] 0).1.flatten).countP
        (fun mt => decide (mt.players = [pA, pB] ∨ mt.players = [pB, pA])) = 1
     ∧ ∀ rnd ∈ (generateRoundRobin sig0 [pA, pB, pC] 0).1,
         rnd.Pairwise (fun m1 m2 => ∀ x ∈ m1.players, ∀ y ∈ m2.players,
           x.pid ≠ y.pid)) :=
  ⟨⟨by decide, by decide, by decide, by decide, by decide⟩,
   generateRoundRobin_complete sig0 [pA, pB, pC] 0 (by decide) (by decide)
     pA pB (by decide) (by decide) (by decide)⟩

/-- Counterexample to C3 as stated: the ids of `pEmpty` and `pB` are
distinct and non-null, yet the pair appears in zero matches — the
generator tests JS truthiness, so the empty-string id is dropped. -/
theorem generateRoundRobin_claim_cex :
    (([pEmpty, pB].map Player.pid).Nodup ∧
     (∀ p ∈ [pEmpty, pB], p.pid ≠ none) ∧
     pEmpty ∈ [pEmpty, pB] ∧ pB ∈ [pEmpty, pB] ∧ pEmpty.pid ≠ pB.pid) ∧
    ((generateRoundRobin sig0 [pEmpty, pB] 0).1.flatten).countP
      (fun mt => decide (mt.players = [pEmpty, pB] ∨ mt.players = [pB, pEmpty]))
      = 0 := by
  decide
